import Mathlib

/-!
# Wallet: period filter, aggregation and store requests

A shallow embedding of the client-side logic of the personal finance tracker:

* `BalanceCard`        (src/components/BalanceCard.jsx)  income, expense and balance totals;
* `getCategoryData`    (src/components/Statistics.jsx)   category breakdown;
* `getTrendData`       (src/components/Statistics.jsx)   day-bucketed trend series;
* `filterTransactions` (src/App.jsx)                     period filter;
* `fetchTransactions`, `handleDelete` (src/App.jsx)      loading and deleting;
* `handleSubmit`       (src/components/TransactionForm.jsx)  insert and update.

Conventions of the embedding.

* JavaScript numbers that hold amounts are exact rationals (`ℚ`); binary floating-point rounding
  is outside the model.  Time values are integers (milliseconds since the epoch), which JavaScript
  represents exactly in the whole range of valid dates.
* `NaN` is `none` in an `Option`.
* The built-in `Date` operations follow the abstract operations of ECMA-262 (`Day`,
  `TimeWithinDay`, `DayFromYear`, `YearFromTime`, `MonthFromTime`, `DateFromTime`, `MakeDay`,
  `MakeDate`, `TimeClip`, `LocalTime`, `UTC`, `LocalTZA`).  The local time zone is data of the
  host (`TimeZone`): its offset from UTC may change from one instant to another, as it does at
  the start and at the end of daylight-saving time.  A zone of constant offset is `fixedZone`.
* An object literal `{}` used as a dictionary is a list of own properties in creation order,
  read through the prototype chain and enumerated in the order of `OrdinaryOwnPropertyKeys`.
* `transaction_date` is a value of the store's `date` column: a valid calendar date of the years
  0 to 9999 (`DateOnly`), whose string form is `YYYY-MM-DD`.
* The short month names of the locale are data of the host; `getTrendData` takes the table as the
  argument `monthName`.
* The remote store is modelled from the specification as a table of rows (`Store`); a handler
  is a function of the state it reads, of the table and of the outcome of each of its store
  calls, and returns the new state, the new table and the requests it issued.
-/

namespace Wallet

/-! ## ECMAScript time values -/

/-- Milliseconds per day. -/
def msPerDay : Int := 86400000

/-- Day number of a time value: `floor(t / msPerDay)`. -/
def Day (t : Int) : Int := t / msPerDay

/-- Milliseconds elapsed since the start of the day: `t modulo msPerDay`. -/
def TimeWithinDay (t : Int) : Int := t % msPerDay

/-- Number of days of year `y` in the proleptic Gregorian calendar. -/
def DaysInYear (y : Int) : Int :=
  if y % 4 ≠ 0 then 365 else if y % 100 ≠ 0 then 366 else if y % 400 ≠ 0 then 365 else 366

/-- Day number of the first day of year `y`. -/
def DayFromYear (y : Int) : Int :=
  365 * (y - 1970) + (y - 1969) / 4 - (y - 1901) / 100 + (y - 1601) / 400

/-- The year containing day number `d`: the largest `y` with `DayFromYear y ≤ d`.  The quotient
by the mean length of a Gregorian year is off by at most one, which the two tests repair. -/
def YearFromDay (d : Int) : Int :=
  let y := 1970 + 400 * d / 146097
  if d < DayFromYear y then y - 1 else if DayFromYear (y + 1) ≤ d then y + 1 else y

/-- Year of a time value. -/
def YearFromTime (t : Int) : Int := YearFromDay (Day t)

/-- Leap-year indicator of a year: 1 in a leap year, otherwise 0. -/
def leapOf (y : Int) : Int := if DaysInYear y = 366 then 1 else 0

/-- Leap-year indicator of a time value. -/
def InLeapYear (t : Int) : Int := leapOf (YearFromTime t)

/-- Zero-based day within the year of a time value. -/
def DayWithinYear (t : Int) : Int := Day t - DayFromYear (YearFromTime t)

/-- Zero-based day within the year at which month `m` (0 = January) starts. -/
def monthStart (m : Int) (leap : Int) : Int :=
  if m = 0 then 0 else if m = 1 then 31 else if m = 2 then 59 + leap
  else if m = 3 then 90 + leap else if m = 4 then 120 + leap else if m = 5 then 151 + leap
  else if m = 6 then 181 + leap else if m = 7 then 212 + leap else if m = 8 then 243 + leap
  else if m = 9 then 273 + leap else if m = 10 then 304 + leap else 334 + leap

/-- Month (0 = January) in which the zero-based day `dwy` of a year falls. -/
def monthOfDayWithinYear (dwy : Int) (leap : Int) : Int :=
  if dwy < 31 then 0 else if dwy < 59 + leap then 1 else if dwy < 90 + leap then 2
  else if dwy < 120 + leap then 3 else if dwy < 151 + leap then 4 else if dwy < 181 + leap then 5
  else if dwy < 212 + leap then 6 else if dwy < 243 + leap then 7 else if dwy < 273 + leap then 8
  else if dwy < 304 + leap then 9 else if dwy < 334 + leap then 10 else 11

/-- Length in days of month `m` (0 = January) in a year with leap indicator `leap`. -/
def monthLength (m leap : Int) : Int :=
  if m = 1 then 28 + leap
  else if m = 3 ∨ m = 5 ∨ m = 8 ∨ m = 10 then 30 else 31

/-- Month of a time value, 0 = January. -/
def MonthFromTime (t : Int) : Int := monthOfDayWithinYear (DayWithinYear t) (InLeapYear t)

/-- Day of the month of a time value, 1-based. -/
def DateFromTime (t : Int) : Int :=
  DayWithinYear t - monthStart (MonthFromTime t) (InLeapYear t) + 1

/-- Day number of the given year, month (0-based, any integer) and day of month (any integer):
months outside 0..11 carry into the year, days outside the month carry into the adjacent
months. -/
def MakeDay (year month date : Int) : Int :=
  let ym := year + month / 12
  let mn := month % 12
  DayFromYear ym + monthStart mn (leapOf ym) + date - 1

/-- Time value of a day number and a time within the day. -/
def MakeDate (day time : Int) : Int := day * msPerDay + time

/-- Range check of time values: beyond 8.64e15 ms from the epoch the date is invalid (`NaN`). -/
def TimeClip (t : Int) : Option Int := if t.natAbs > 8640000000000000 then none else some t

/-- The time zone of the host.  `LocalTZA t isUTC` is the offset of local time from UTC in
milliseconds: the offset in force at the UTC time value `t` when `isUTC` is true, and the offset
that the host assigns to the local time value `t` when `isUTC` is false.  The offset may change
with `t`, as it does at the start and at the end of daylight-saving time. -/
structure TimeZone where
  LocalTZA : Int → Bool → Int

/-- A zone whose offset is `tza` milliseconds at all times. -/
def fixedZone (tza : Int) : TimeZone := { LocalTZA := fun _ _ => tza }

/-- Local time of a UTC time value: the offset in force at that instant is added. -/
def LocalTime (tz : TimeZone) (t : Int) : Int := t + tz.LocalTZA t true

/-- The UTC time value of a local time: the offset assigned to that local time is subtracted. -/
def UTC (tz : TimeZone) (t : Int) : Int := t - tz.LocalTZA t false

/-- A `Date` object: its time value, or `none` for an invalid date. -/
abbrev JSDate := Option Int

/-- The method `Date.prototype.getDate`, in local time. -/
def getDate (tz : TimeZone) (d : JSDate) : Option Int :=
  d.map fun t => DateFromTime (LocalTime tz t)

/-- The method `Date.prototype.getMonth`, in local time. -/
def getMonth (tz : TimeZone) (d : JSDate) : Option Int :=
  d.map fun t => MonthFromTime (LocalTime tz t)

/-- The method `Date.prototype.getFullYear`, in local time. -/
def getFullYear (tz : TimeZone) (d : JSDate) : Option Int :=
  d.map fun t => YearFromTime (LocalTime tz t)

/-- The method `Date.prototype.getTime`. -/
def getTime (d : JSDate) : Option Int := d

/-- The method `Date.prototype.setDate(dt)`; a `NaN` argument or receiver gives an invalid date.
The receiver is read in local time with the offset in force at its own instant, and the new
local time is converted back with the offset that the zone assigns to it, which differs from the
first when a clock change lies between the two. -/
def setDate (tz : TimeZone) (d : JSDate) (dt : Option Int) : JSDate :=
  match d, dt with
  | some u, some dt =>
    let t := LocalTime tz u
    TimeClip (UTC tz (MakeDate (MakeDay (YearFromTime t) (MonthFromTime t) dt) (TimeWithinDay t)))
  | _, _ => none

/-- The method `Date.prototype.setMonth(m)`. -/
def setMonth (tz : TimeZone) (d : JSDate) (m : Option Int) : JSDate :=
  match d, m with
  | some u, some m =>
    let t := LocalTime tz u
    TimeClip (UTC tz (MakeDate (MakeDay (YearFromTime t) m (DateFromTime t)) (TimeWithinDay t)))
  | _, _ => none

/-- The method `Date.prototype.setFullYear(y)`; an invalid receiver counts as time value 0. -/
def setFullYear (tz : TimeZone) (d : JSDate) (y : Option Int) : JSDate :=
  match y with
  | some y =>
    let t := match d with
      | some u => LocalTime tz u
      | none => 0
    TimeClip (UTC tz (MakeDate (MakeDay y (MonthFromTime t) (DateFromTime t)) (TimeWithinDay t)))
  | none => none

/-- The comparison `a >= b` of two `Date` objects: both are converted to their time values, and
any comparison with `NaN` is false. -/
def dateGE (a b : JSDate) : Bool :=
  match a, b with
  | some x, some y => decide (y ≤ x)
  | _, _ => false

/-! ## Calendar dates of the store -/

/-- Number of days of month `m` (1 = January) of year `y`. -/
def daysInMonth (y m : Nat) : Nat :=
  if m = 2 then (if DaysInYear y = 366 then 29 else 28)
  else if m = 4 ∨ m = 6 ∨ m = 9 ∨ m = 11 then 30 else 31

/-- A value of the store's `date` column (`transaction_date`): a calendar date without a time
component, which reaches the client as the string `YYYY-MM-DD`. -/
structure DateOnly where
  year : Nat
  month : Nat
  day : Nat
  year_le : year ≤ 9999 := by decide
  month_pos : 1 ≤ month := by decide
  month_le : month ≤ 12 := by decide
  day_pos : 1 ≤ day := by decide
  day_le : day ≤ daysInMonth year month := by decide
deriving DecidableEq

/-- The decimal digit character of `n % 10`. -/
def digitChar (n : Nat) : Char := Char.ofNat (48 + n % 10)

/-- Two decimal digits, zero padded. -/
def pad2 (n : Nat) : List Char := [digitChar (n / 10), digitChar n]

/-- Four decimal digits, zero padded. -/
def pad4 (n : Nat) : List Char :=
  [digitChar (n / 1000), digitChar (n / 100), digitChar (n / 10), digitChar n]

/-- Six decimal digits, zero padded. -/
def pad6 (n : Nat) : List Char :=
  [digitChar (n / 100000), digitChar (n / 10000), digitChar (n / 1000), digitChar (n / 100),
   digitChar (n / 10), digitChar n]

/-- The string form `YYYY-MM-DD` of a store date, the value of `t.transaction_date`. -/
def DateOnly.toISO (d : DateOnly) : String :=
  String.mk (pad4 d.year ++ '-' :: pad2 d.month ++ '-' :: pad2 d.day)

/-- Day number of a store date. -/
def DateOnly.dayNumber (d : DateOnly) : Int := MakeDay d.year (d.month - 1 : Int) d.day

/-- The constructor call `new Date(s)` on a date-only string `YYYY-MM-DD`: midnight UTC of that
day. -/
def DateOnly.toDate (d : DateOnly) : JSDate :=
  TimeClip (MakeDate d.dayNumber 0)

/-- Year part of `Date.prototype.toISOString`: four digits for the years 0 to 9999, otherwise a
sign and six digits. -/
def isoYear (y : Int) : List Char :=
  if 0 ≤ y ∧ y ≤ 9999 then pad4 y.toNat
  else if 0 ≤ y then '+' :: pad6 y.toNat else '-' :: pad6 y.natAbs

/-- The expression `d.toISOString().split('T')[0]` for a valid date `d` with time value `t`:
the UTC calendar date of `t` in the form `YYYY-MM-DD`. -/
def toISODate (t : Int) : String :=
  String.mk (isoYear (YearFromTime t) ++ '-' :: pad2 (MonthFromTime t + 1).toNat
    ++ '-' :: pad2 (DateFromTime t).toNat)

/-! ## Transactions -/

/-- A row of the `transactions` table as the components receive it.  `amount` is the numeric value
`Number(t.amount)`; `category` is `none` when the field is missing. -/
structure Transaction where
  id : Nat := 0
  user_id : String := ""
  type : String
  amount : ℚ
  description : String := ""
  category : Option String := none
  transaction_date : DateOnly
deriving DecidableEq

/-! ## BalanceCard -/

/-- The three figures shown by the balance card. -/
structure Totals where
  totalIncome : ℚ
  totalExpense : ℚ
  balance : ℚ
deriving DecidableEq

/-- The totals computed at the top of the component `BalanceCard`. -/
def BalanceCard (transactions : List Transaction) : Totals :=
  let totalIncome :=
    (transactions.filter fun t => t.type == "income").foldl (fun sum t => sum + t.amount) 0
  let totalExpense :=
    (transactions.filter fun t => t.type == "expense").foldl (fun sum t => sum + t.amount) 0
  let balance := totalIncome - totalExpense
  { totalIncome := totalIncome, totalExpense := totalExpense, balance := balance }

/-- The end-to-end example of the specification. -/
def specExample : List Transaction :=
  [ { type := "income", amount := 5000, category := some "Salary",
      transaction_date := { year := 2024, month := 1, day := 1 } },
    { type := "expense", amount := 1200, category := some "Groceries",
      transaction_date := { year := 2024, month := 1, day := 3 } },
    { type := "expense", amount := 300, category := some "Groceries",
      transaction_date := { year := 2024, month := 1, day := 10 } } ]

/-! ## Period filter (src/App.jsx) -/

/-- The function `filterTransactions` of `App`, as a function of the state it reads
(`transactions`, `filterPeriod`), of the clock reading `now = new Date()` (a valid time value)
and of the time zone `tz` of the host. -/
def filterTransactions (tz : TimeZone) (now : Int) (transactions : List Transaction)
    (filterPeriod : String) : List Transaction :=
  match filterPeriod with
  | "daily" =>
    let today := toISODate now
    transactions.filter fun t => t.transaction_date.toISO == today
  | "weekly" =>
    let weekAgo : JSDate := some now
    let weekAgo := setDate tz weekAgo ((getDate tz weekAgo).map (· - 7))
    transactions.filter fun t => dateGE t.transaction_date.toDate weekAgo
  | "monthly" =>
    let monthAgo : JSDate := some now
    let monthAgo := setMonth tz monthAgo ((getMonth tz monthAgo).map (· - 1))
    transactions.filter fun t => dateGE t.transaction_date.toDate monthAgo
  | "yearly" =>
    let yearAgo : JSDate := some now
    let yearAgo := setFullYear tz yearAgo ((getFullYear tz yearAgo).map (· - 1))
    transactions.filter fun t => dateGE t.transaction_date.toDate yearAgo
  | _ => transactions

/-! ## Objects used as dictionaries -/

/-- Names of the properties that every object created by `{}` inherits from `Object.prototype`.
All of them hold functions, except the accessor `__proto__`, whose getter returns the prototype
object; every inherited value is therefore truthy and not a number. -/
def objectPrototypeKeys : List String :=
  ["constructor", "__defineGetter__", "__defineSetter__", "hasOwnProperty", "__lookupGetter__",
   "__lookupSetter__", "isPrototypeOf", "propertyIsEnumerable", "toString", "valueOf",
   "__proto__", "toLocaleString"]

/-- The own properties of an object created by `{}`, in creation order. -/
abbrev JSObject (β : Type) := List (String × β)

/-- Result of the property read `obj[key]`. -/
inductive Lookup (β : Type) where
  | own (v : β)
  | inherited
  | undefined
deriving DecidableEq

/-- The property read `obj[key]`: an own property, else a property of `Object.prototype`, else
`undefined`. -/
def JSObject.get {β : Type} (obj : JSObject β) (key : String) : Lookup β :=
  match obj.lookup key with
  | some v => Lookup.own v
  | none => if key ∈ objectPrototypeKeys then Lookup.inherited else Lookup.undefined

/-- The assignment `obj[key] = v`.  An existing own property keeps its position; a new one is
created last.  Assigning to `__proto__` runs the inherited setter and creates no own property. -/
def JSObject.set {β : Type} (obj : JSObject β) (key : String) (v : β) : JSObject β :=
  if key = "__proto__" then obj
  else if obj.any (fun p => p.1 == key) then
    obj.map fun p => if p.1 == key then (key, v) else p
  else obj ++ [(key, v)]

/-- The array index denoted by a property name: the canonical decimal form of an integer below
`2^32 - 1`. -/
def arrayIndex? (key : String) : Option Nat :=
  let cs := key.data
  if cs ≠ [] ∧ cs.all Char.isDigit ∧ (cs.head? ≠ some '0' ∨ cs.length = 1) then
    let n := cs.foldl (fun n c => 10 * n + (c.toNat - 48)) 0
    if n < 4294967295 then some n else none
  else none

/-- The own properties in the order of `OrdinaryOwnPropertyKeys`, which `Object.entries` and
`Object.values` follow: array indices in ascending numeric order, then the other names in
creation order. -/
def JSObject.entries {β : Type} (obj : JSObject β) : List (String × β) :=
  (obj.filter fun p => (arrayIndex? p.1).isSome).insertionSort
      (fun p q => (arrayIndex? p.1).getD 0 ≤ (arrayIndex? q.1).getD 0)
    ++ obj.filter fun p => (arrayIndex? p.1).isNone

/-- The method `Array.prototype.sort(cmp)`: a stable sort that puts `a` after `b` only when
`cmp a b > 0`; a comparator result `NaN` counts as `0`.  (When the comparator is not a consistent
order, which here needs a `NaN`, the language leaves the resulting order to the engine.) -/
def jsSort {α : Type} (cmp : α → α → Option Int) (l : List α) : List α :=
  l.insertionSort fun a b => (cmp a b).getD 0 ≤ 0

/-- The call `arr.slice(-n)`: the last `n` elements. -/
def sliceLast {α : Type} (n : Nat) (l : List α) : List α := l.drop (l.length - n)

/-! ## Statistics (src/components/Statistics.jsx) -/

/-- A value held by `categoryMap`: a number, or the string that `+` produces once an inherited
function or a string is the left operand (such a string never reads as a number). -/
inductive JSVal where
  | num (x : ℚ)
  | str
deriving DecidableEq

/-- The function `Math.round` after `ToNumber`: the nearest integer, halves towards `+∞`; `NaN`
for a non-numeric string. -/
def Math_round : JSVal → Option Int
  | JSVal.num x => some ⌊x + 1 / 2⌋
  | JSVal.str => none

/-- An element of the category breakdown. -/
structure CategoryDatum where
  name : String
  value : Option Int
deriving DecidableEq

/-- The expression `t.category || 'Others'`. -/
def categoryOf (t : Transaction) : String :=
  match t.category with
  | some c => if c = "" then "Others" else c
  | none => "Others"

/-- The body of the `forEach` of `getCategoryData`:
`categoryMap[cat] = (categoryMap[cat] || 0) + Number(t.amount)`. -/
def categoryStep (categoryMap : JSObject JSVal) (t : Transaction) : JSObject JSVal :=
  let cat := categoryOf t
  let next :=
    match categoryMap.get cat with
    | Lookup.own (JSVal.num x) => JSVal.num ((if x = 0 then 0 else x) + t.amount)
    | Lookup.own JSVal.str => JSVal.str
    | Lookup.inherited => JSVal.str
    | Lookup.undefined => JSVal.num (0 + t.amount)
  categoryMap.set cat next

/-- The comparator `(a, b) => b.value - a.value`. -/
def byValueDesc (a b : CategoryDatum) : Option Int :=
  match b.value, a.value with
  | some x, some y => some (x - y)
  | _, _ => none

/-- The function `getCategoryData` of `Statistics`. -/
def getCategoryData (transactionsList : List Transaction) : List CategoryDatum :=
  let categoryMap : JSObject JSVal := transactionsList.foldl categoryStep []
  jsSort byValueDesc
    (categoryMap.entries.map fun p => { name := p.1, value := Math_round p.2 })

/-- The list `expenses` of `Statistics`. -/
def expenses (transactions : List Transaction) : List Transaction :=
  transactions.filter fun t => t.type == "expense"

/-- The list `income` of `Statistics`. -/
def income (transactions : List Transaction) : List Transaction :=
  transactions.filter fun t => t.type == "income"

/-- The value `totalExpenses` of `Statistics`. -/
def totalExpenses (transactions : List Transaction) : ℚ :=
  (expenses transactions).foldl (fun sum t => sum + t.amount) 0

/-- The value `totalIncome` of `Statistics`. -/
def totalIncome (transactions : List Transaction) : ℚ :=
  (income transactions).foldl (fun sum t => sum + t.amount) 0

/-- The value `expenseData` of `Statistics`. -/
def expenseData (transactions : List Transaction) : List CategoryDatum :=
  getCategoryData (expenses transactions)

/-- The value `incomeData` of `Statistics`. -/
def incomeData (transactions : List Transaction) : List CategoryDatum :=
  getCategoryData (income transactions)

/-- A bucket of `dayMap`. -/
structure DayBucket where
  date : String
  amount : ℚ
  timestamp : Option Int
deriving DecidableEq

/-- An element of the trend series. -/
structure TrendPoint where
  date : String
  amount : ℚ
deriving DecidableEq

/-- Short month names of the locale `en-IN`, as the host's locale data gives them for
`toLocaleDateString('en-IN', { month: 'short' })`. -/
def enINShortMonth (m : Int) : String :=
  ["Jan", "Feb", "Mar", "Apr", "May", "Jun", "Jul", "Aug", "Sept", "Oct", "Nov", "Dec"].getD
    m.toNat ""

/-- The template literal of `getTrendData`, `day` and `month` joined by a space: the day of the
month and the short month name of the date in local time (`NaN` and `Invalid Date` for an invalid
date).  `monthName` is the host's table of short month names. -/
def trendKey (tz : TimeZone) (monthName : Int → String) (date : JSDate) : String :=
  let day := match getDate tz date with
    | some d => toString d
    | none => "NaN"
  let month := match getMonth tz date with
    | some m => monthName m
    | none => "Invalid Date"
  day ++ " " ++ month

/-- The body of the `forEach` of `getTrendData`. -/
def trendStep (tz : TimeZone) (monthName : Int → String) (dayMap : JSObject DayBucket)
    (t : Transaction) : JSObject DayBucket :=
  let date := t.transaction_date.toDate
  let key := trendKey tz monthName date
  let dayMap :=
    match dayMap.get key with
    | Lookup.undefined => dayMap.set key { date := key, amount := 0, timestamp := getTime date }
    | _ => dayMap
  match dayMap.get key with
  | Lookup.own b => dayMap.set key { b with amount := b.amount + t.amount }
  | _ => dayMap

/-- The comparator `(a, b) => a.timestamp - b.timestamp`. -/
def byTimestamp (a b : DayBucket) : Option Int :=
  match a.timestamp, b.timestamp with
  | some x, some y => some (x - y)
  | _, _ => none

/-- All buckets of `getTrendData` in sorted order, `Object.values(dayMap).sort(...)`. -/
def trendBuckets (tz : TimeZone) (monthName : Int → String) (transactions : List Transaction)
    (type : String) : List DayBucket :=
  let filteredTransactions := transactions.filter fun t => t.type == type
  let dayMap : JSObject DayBucket := filteredTransactions.foldl (trendStep tz monthName) []
  jsSort byTimestamp (dayMap.entries.map fun p => p.2)

/-- The buckets that `getTrendData` keeps, before their timestamps are dropped:
`Object.values(dayMap).sort(...).slice(-15)`. -/
def getTrendBuckets (tz : TimeZone) (monthName : Int → String) (transactions : List Transaction)
    (type : String) : List DayBucket :=
  sliceLast 15 (trendBuckets tz monthName transactions type)

/-- The function `getTrendData` of `Statistics`. -/
def getTrendData (tz : TimeZone) (monthName : Int → String) (transactions : List Transaction)
    (type : String) : List TrendPoint :=
  (getTrendBuckets tz monthName transactions type).map
    fun b => { date := b.date, amount := b.amount }

/-! ## Requests to the transaction store -/

/-- An equality filter of a request: `.eq('id', id)` or `.eq('user_id', userId)`. -/
inductive Filter where
  | idEq (id : Nat)
  | userIdEq (userId : String)
deriving DecidableEq

/-- A number as `parseFloat` returns it: `NaN`, an infinity, or a finite number. -/
inductive JSNumber where
  | nan
  | infinity (negative : Bool)
  | finite (x : ℚ)
deriving DecidableEq

/-- The object `transactionData` that `handleSubmit` sends. -/
structure TransactionData where
  type : String
  amount : JSNumber
  description : String
  category : String
  transaction_date : DateOnly
  user_id : String
deriving DecidableEq

/-- A request on the table `transactions`, as the query builder assembles it:
`select('*')` with its filters and `order('transaction_date', { ascending: false })`,
`delete()` with its filters, `update(data)` with its filters, `insert([data])`. -/
inductive Request where
  | select (filters : List Filter)
  | delete (filters : List Filter)
  | update (data : TransactionData) (filters : List Filter)
  | insert (data : List TransactionData)
deriving DecidableEq

/-- The answer of the store to a request: `{ data, error }`. -/
structure Response where
  data : Option (List Transaction)
  error : Option String
deriving DecidableEq

/-! ## The transaction store -/

/-- Modelled from the spec: the remote table of transactions, the external collaborator behind
`list`, `insert`, `update` and `delete`; its rows in storage order. -/
abbrev Store := List Transaction

/-- Modelled from the spec: whether a row satisfies one equality filter. -/
def Filter.holds (f : Filter) (row : Transaction) : Bool :=
  match f with
  | Filter.idEq id => row.id == id
  | Filter.userIdEq userId => row.user_id == userId

/-- Modelled from the spec: whether a row satisfies all filters of a request. -/
def matchesAll (filters : List Filter) (row : Transaction) : Bool :=
  filters.all fun f => f.holds row

/-- The order `transaction_date` descending: `a` may stand in front of `b`. -/
def dateDesc (a b : Transaction) : Prop :=
  b.transaction_date.dayNumber ≤ a.transaction_date.dayNumber

instance dateDesc_decidable : DecidableRel dateDesc := fun a b => by
  unfold dateDesc
  infer_instance

/-- Modelled from the spec: `list`, the rows that satisfy the filters, ordered by
`transaction_date` descending.  The store fixes no order among rows of equal date; the model
keeps them in storage order. -/
def Store.select (rows : Store) (filters : List Filter) : List Transaction :=
  (rows.filter (matchesAll filters)).insertionSort dateDesc

/-- Modelled from the spec: `delete`, which removes the rows that satisfy the filters. -/
def Store.delete (rows : Store) (filters : List Filter) : Store :=
  rows.filter fun row => !matchesAll filters row

/-- Modelled from the spec: a row after `update(data)`; every column of `data` is overwritten,
`user_id` included. -/
def TransactionData.applyTo (data : TransactionData) (amount : ℚ) (row : Transaction) :
    Transaction :=
  { row with
    type := data.type, amount := amount, description := data.description,
    category := some data.category, transaction_date := data.transaction_date,
    user_id := data.user_id }

/-- Modelled from the spec: `update`, which overwrites the rows that satisfy the filters; the
store rejects (`none`) an amount that is not a finite number. -/
def Store.update (rows : Store) (data : TransactionData) (filters : List Filter) :
    Option Store :=
  match data.amount with
  | JSNumber.finite x =>
    some (rows.map fun row => if matchesAll filters row then data.applyTo x row else row)
  | _ => none

/-- Modelled from the spec: an identifier that no row uses. -/
def Store.freshId (rows : Store) : Nat := (rows.map (·.id)).foldl max 0 + 1

/-- Modelled from the spec: `insert` of one record, which the store stores under a new
identifier; the store rejects (`none`) an amount that is not a finite number. -/
def Store.insertOne (rows : Store) (data : TransactionData) : Option Store :=
  match data.amount with
  | JSNumber.finite x =>
    some (rows ++ [data.applyTo x
      { id := rows.freshId, type := data.type, amount := x,
        transaction_date := data.transaction_date }])
  | _ => none

/-- Modelled from the spec: `insert` of a list of records, all or none. -/
def Store.insert (rows : Store) (data : List TransactionData) : Option Store :=
  data.foldlM Store.insertOne rows

/-- The answer `{ data: null, error: null }` of a successful mutation. -/
def Response.done : Response := { data := none, error := none }

/-- Modelled from the spec: one call of the store.  `failure` is the error with which the call
ends when it fails (network, rejection by the backend); a failed call leaves the table as it
was. -/
def Store.call (rows : Store) (request : Request) (failure : Option String) :
    Store × Response :=
  match failure with
  | some message => (rows, { data := none, error := some message })
  | none =>
    match request with
    | Request.select filters => (rows, { data := some (rows.select filters), error := none })
    | Request.delete filters => (rows.delete filters, Response.done)
    | Request.update data filters =>
      match rows.update data filters with
      | some rows' => (rows', Response.done)
      | none => (rows, { data := none, error := some "invalid input" })
    | Request.insert data =>
      match rows.insert data with
      | some rows' => (rows', Response.done)
      | none => (rows, { data := none, error := some "invalid input" })

/-! ## App (src/App.jsx): loading and deleting -/

/-- The state of `App` that the handlers read and write. -/
structure AppState where
  transactions : List Transaction := []
  editingTransaction : Option Transaction := none
  filterPeriod : String := "all"
  userId : String
deriving DecidableEq

/-- What a handler of `App` leaves behind: its state, the table, and the requests it issued,
in order. -/
structure Outcome where
  state : AppState
  rows : Store
  requests : List Request
deriving DecidableEq

/-- The function `fetchTransactions` of `App`; `fetchFailure` is the error of its store call,
if it fails. -/
def fetchTransactions (st : AppState) (rows : Store) (fetchFailure : Option String) : Outcome :=
  let request := Request.select [Filter.userIdEq st.userId]
  let answer := rows.call request fetchFailure
  let st :=
    match answer.2.error, answer.2.data with
    | none, some data => { st with transactions := data }
    | _, _ => st
  { state := st, rows := answer.1, requests := [request] }

/-- The function `handleDelete` of `App`; `confirmed` is the answer to `confirm(...)`,
`deleteFailure` and `fetchFailure` are the errors of its store calls, if they fail. -/
def handleDelete (st : AppState) (rows : Store) (id : Nat) (confirmed : Bool)
    (deleteFailure fetchFailure : Option String) : Outcome :=
  if confirmed then
    let request := Request.delete [Filter.idEq id, Filter.userIdEq st.userId]
    let answer := rows.call request deleteFailure
    match answer.2.error with
    | none =>
      let fetched := fetchTransactions st answer.1 fetchFailure
      { fetched with requests := request :: fetched.requests }
    | some _ => { state := st, rows := answer.1, requests := [request] }
  else { state := st, rows := rows, requests := [] }

/-- The function `handleTransactionAdded` of `App`. -/
def handleTransactionAdded (st : AppState) (rows : Store) (fetchFailure : Option String) :
    Outcome :=
  let fetched := fetchTransactions st rows fetchFailure
  { fetched with state := { fetched.state with editingTransaction := none } }

/-! ## TransactionForm (src/components/TransactionForm.jsx) -/

/-- The characters that `parseFloat` skips in front of the number (`StrWhiteSpaceChar`). -/
def isStrWhiteSpaceChar (c : Char) : Bool :=
  c.toNat ∈ [9, 10, 11, 12, 13, 32, 160, 5760, 8232, 8233, 8239, 8287, 12288, 65279]
    || (8192 ≤ c.toNat && c.toNat ≤ 8202)

/-- The number that a sequence of decimal digits denotes. -/
def digitsValue (ds : List Char) : Nat := ds.foldl (fun n c => 10 * n + (c.toNat - 48)) 0

/-- An optional sign in front of the remaining characters: whether it is a minus, and the
rest. -/
def splitSign (cs : List Char) : Bool × List Char :=
  match cs with
  | '-' :: rest => (true, rest)
  | '+' :: rest => (false, rest)
  | _ => (false, cs)

/-- The exponent that follows `e` or `E`: a signed sequence of digits, or nothing (then the
letter does not belong to the number). -/
def exponentPart (cs : List Char) : Int :=
  let signed := splitSign cs
  let es := signed.2.takeWhile Char.isDigit
  if es = [] then 0 else if signed.1 then -(digitsValue es : Int) else digitsValue es

/-- The product `x * 10 ^ e` for an integer exponent. -/
def scale10 (x : ℚ) (e : Int) : ℚ :=
  if 0 ≤ e then x * 10 ^ e.toNat else x / 10 ^ (-e).toNat

/-- The number denoted by the longest prefix of `cs` that is a decimal literal without its
sign: `Infinity`, or digits with an optional fraction and an optional exponent; `NaN` without
such a prefix.  `negative` is the sign read in front of `cs`. -/
def parseMagnitude (negative : Bool) (cs : List Char) : JSNumber :=
  if "Infinity".data.isPrefixOf cs then JSNumber.infinity negative
  else
    let ip := cs.takeWhile Char.isDigit
    let afterInt := cs.dropWhile Char.isDigit
    let fraction :=
      match afterInt with
      | '.' :: rest => (rest.takeWhile Char.isDigit, rest.dropWhile Char.isDigit)
      | _ => ([], afterInt)
    let fp := fraction.1
    if ip = [] ∧ fp = [] then JSNumber.nan
    else
      let mantissa : ℚ := digitsValue ip + (digitsValue fp : ℚ) / 10 ^ fp.length
      let exponent : Int :=
        match fraction.2 with
        | 'e' :: rest => exponentPart rest
        | 'E' :: rest => exponentPart rest
        | _ => 0
      let x := scale10 mantissa exponent
      JSNumber.finite (if negative then -x else x)

/-- The function `parseFloat`: leading white space is skipped, then the longest prefix that is
a decimal literal with an optional sign gives the number; without such a prefix the result is
`NaN`.  The value is exact: rounding to a binary floating-point number, and overflow to
infinity, are outside the model. -/
def parseFloat (s : String) : JSNumber :=
  let signed := splitSign (s.data.dropWhile isStrWhiteSpaceChar)
  parseMagnitude signed.1 signed.2

/-- The state of `TransactionForm`. -/
structure FormState where
  type : String := "expense"
  amount : String := ""
  description : String := ""
  category : String := ""
  transactionDate : DateOnly
  loading : Bool := false
  error : String := ""
deriving DecidableEq

/-- The object `transactionData` that `handleSubmit` builds from the state of the form and the
property `userId`. -/
def transactionData (form : FormState) (userId : String) : TransactionData :=
  { type := form.type
    amount := parseFloat form.amount
    description := form.description
    category := if form.category = "" then "Others" else form.category
    transaction_date := form.transactionDate
    user_id := userId }

/-- The request of `handleSubmit`: an update of the edited transaction, filtered by its `id`,
or an insert. -/
def submitRequest (form : FormState) (editTransaction : Option Transaction) (userId : String) :
    Request :=
  match editTransaction with
  | some edited => Request.update (transactionData form userId) [Filter.idEq edited.id]
  | none => Request.insert [transactionData form userId]

/-- What `handleSubmit` leaves behind: the state of the form, the table, the requests it
issued, and whether it called `onTransactionAdded` and `onCancelEdit`. -/
structure SubmitOutcome where
  form : FormState
  rows : Store
  requests : List Request
  onTransactionAdded : Bool
  onCancelEdit : Bool
deriving DecidableEq

/-- The function `handleSubmit` of `TransactionForm`.  `today` is the date that
`new Date().toISOString().split('T')[0]` gives when the form is reset, `failure` the error of
the store call, if it fails.  The request is built from the state of the form as the handler
sees it; `App` always passes the property `onCancelEdit`. -/
def handleSubmit (form : FormState) (editTransaction : Option Transaction) (userId : String)
    (today : DateOnly) (rows : Store) (failure : Option String) : SubmitOutcome :=
  let request := submitRequest form editTransaction userId
  let form := { form with loading := true }
  let form := { form with error := "" }
  let answer := rows.call request failure
  match answer.2.error with
  | some message =>
    let form := { form with error := message }
    let form := { form with loading := false }
    { form := form, rows := answer.1, requests := [request],
      onTransactionAdded := false, onCancelEdit := false }
  | none =>
    let form := { form with amount := "" }
    let form := { form with description := "" }
    let form := { form with category := "" }
    let form := { form with transactionDate := today }
    let form := { form with loading := false }
    { form := form, rows := answer.1, requests := [request],
      onTransactionAdded := true, onCancelEdit := true }

/-! ## Notions used in the statements and proofs -/

/-- The keys of a list in the order of their first occurrence. -/
def firstSeen (l : List String) : List String :=
  l.foldl (fun acc c => if c ∈ acc then acc else acc ++ [c]) []

/-- Grouping step on a dictionary: the value under `key t` is updated by `upd`, or created by
`init` behind the existing properties. -/
def groupStep {τ β : Type} (key : τ → String) (init : τ → β) (upd : β → τ → β)
    (obj : JSObject β) (t : τ) : JSObject β :=
  match obj.lookup (key t) with
  | some v => obj.map fun p => if p.1 == key t then (key t, upd v t) else p
  | none => obj ++ [(key t, init t)]

/-- The value for the key of `t` after `t`, given the value `acc` before it. -/
def groupNext {τ β : Type} (init : τ → β) (upd : β → τ → β) (acc : Option β) (t : τ) : β :=
  match acc with
  | none => init t
  | some v => upd v t

/-- The value that grouping accumulates under the key `k`. -/
def groupValue {τ β : Type} (key : τ → String) (init : τ → β) (upd : β → τ → β)
    (k : String) (l : List τ) : Option β :=
  l.foldl (fun acc t => if key t = k then some (groupNext init upd acc t) else acc) none

/-- The value that `categoryStep` creates for a new category. -/
def categoryInit (t : Transaction) : JSVal := JSVal.num (0 + t.amount)

/-- The value that `categoryStep` computes from the value `v` of an existing own property. -/
def categoryUpd (v : JSVal) (t : Transaction) : JSVal :=
  match v with
  | JSVal.num x => JSVal.num ((if x = 0 then 0 else x) + t.amount)
  | JSVal.str => JSVal.str

/-- The sum of the amounts of the transactions of category `c`. -/
def categorySum (c : String) (l : List Transaction) : ℚ :=
  ((l.filter fun t => categoryOf t == c).map (·.amount)).sum

/-- The order in which `Object.entries` lists two property names `a` and `b` of a dictionary
whose keys were created in the order of first occurrence in `cats`: array indices first, in
ascending numeric order, then the other names in the order of their first occurrence. -/
def entryOrder (cats : List String) (a b : String) : Prop :=
  match arrayIndex? a, arrayIndex? b with
  | some i, some j => i ≤ j
  | some _, none => True
  | none, some _ => False
  | none, none => cats.indexOf a < cats.indexOf b

/-- The comparison that `jsSort byValueDesc` makes: `a` may stay in front of `b`. -/
def valueGE (a b : CategoryDatum) : Prop := (byValueDesc a b).getD 0 ≤ 0

instance valueGE_decidable : DecidableRel valueGE := fun a b => by
  unfold valueGE
  infer_instance

/-- The sum `s + d.value` of two numbers, `NaN` when one of them is `NaN`. -/
def addValue (s : Option Int) (d : CategoryDatum) : Option Int :=
  match s, d.value with
  | some x, some y => some (x + y)
  | _, _ => none

/-- The sum of the values of a category breakdown, as `reduce((s, d) => s + d.value, 0)` computes
it. -/
def valueSum (data : List CategoryDatum) : Option Int := data.foldl addValue (some 0)

/-- Two expenses of equal amount whose categories are the digit strings `2` and `1`. -/
def digitCategories : List Transaction :=
  [ { type := "expense", amount := 5, category := some "2",
      transaction_date := { year := 2024, month := 1, day := 1 } },
    { type := "expense", amount := 5, category := some "1",
      transaction_date := { year := 2024, month := 1, day := 2 } } ]

/-- One expense of 1200.40 in the category `Groceries`. -/
def fractionalExpense : List Transaction :=
  [ { type := "expense", amount := 6002 / 5, category := some "Groceries",
      transaction_date := { year := 2024, month := 1, day := 3 } } ]

/-- One expense in a category named `name`. -/
def oneExpense (name : String) : List Transaction :=
  [ { type := "expense", amount := 1200, category := some name,
      transaction_date := { year := 2024, month := 1, day := 3 } } ]

/-- Expenses without category, with an empty category and in two named categories. -/
def mixedCategories : List Transaction :=
  [ { type := "expense", amount := 5, category := some "Rent",
      transaction_date := { year := 2024, month := 1, day := 1 } },
    { type := "expense", amount := 5, category := some "2",
      transaction_date := { year := 2024, month := 1, day := 1 } },
    { type := "expense", amount := 5, category := some "Food",
      transaction_date := { year := 2024, month := 1, day := 1 } },
    { type := "expense", amount := 13 / 2, category := some "",
      transaction_date := { year := 2024, month := 1, day := 1 } },
    { type := "expense", amount := 1, category := none,
      transaction_date := { year := 2024, month := 1, day := 1 } } ]

/-- The label of the bucket of a transaction. -/
def trendKeyOf (tz : TimeZone) (monthName : Int → String) (t : Transaction) : String :=
  trendKey tz monthName t.transaction_date.toDate

/-- The bucket that `trendStep` creates for a new label, after the amount is added. -/
def trendInit (tz : TimeZone) (monthName : Int → String) (t : Transaction) : DayBucket :=
  { date := trendKeyOf tz monthName t, amount := 0 + t.amount,
    timestamp := getTime t.transaction_date.toDate }

/-- The bucket that `trendStep` makes of an existing bucket. -/
def trendUpd (b : DayBucket) (t : Transaction) : DayBucket :=
  { b with amount := b.amount + t.amount }

/-- The sum of the amounts of the transactions with label `k`. -/
def trendSum (tz : TimeZone) (monthName : Int → String) (k : String) (l : List Transaction) : ℚ :=
  ((l.filter fun t => trendKeyOf tz monthName t == k).map (·.amount)).sum

/-- The comparison that `jsSort byTimestamp` makes: `a` may stay in front of `b`. -/
def timestampLE (a b : DayBucket) : Prop := (byTimestamp a b).getD 0 ≤ 0

instance timestampLE_decidable : DecidableRel timestampLE := fun a b => by
  unfold timestampLE
  infer_instance

/-- Two expenses on January 5 of two different years. -/
def sameDayTwoYears : List Transaction :=
  [ { type := "expense", amount := 200,
      transaction_date := { year := 2024, month := 1, day := 5 } },
    { type := "expense", amount := 100,
      transaction_date := { year := 2023, month := 1, day := 5 } } ]

/-- The list that `App` holds after a successful `fetchTransactions`. -/
def loadedList (st : AppState) (rows : Store) : List Transaction :=
  (fetchTransactions st rows none).state.transactions

/-- The list that `App` holds after a confirmed `handleDelete` whose delete and reload both
succeed. -/
def listAfterDelete (st : AppState) (rows : Store) (id : Nat) : List Transaction :=
  (handleDelete st rows id true none none).state.transactions

/-- A table with two owners. -/
def twoOwners : Store :=
  [ { id := 1, user_id := "user_a", type := "income", amount := 5000,
      category := some "Salary", transaction_date := { year := 2024, month := 1, day := 1 } },
    { id := 2, user_id := "user_b", type := "income", amount := 900,
      category := some "Salary", transaction_date := { year := 2024, month := 1, day := 2 } },
    { id := 3, user_id := "user_a", type := "expense", amount := 1200,
      category := some "Groceries", transaction_date := { year := 2024, month := 1, day := 3 } },
    { id := 4, user_id := "user_a", type := "expense", amount := 300,
      category := some "Groceries", transaction_date := { year := 2024, month := 1, day := 3 } } ]

/-- The characters of a sequence of decimal digits. -/
def digitsText (ds : List (Fin 10)) : List Char := ds.map fun d => digitChar d.val

/-- The number that a sequence of decimal digits denotes. -/
def natOfDigits (ds : List (Fin 10)) : Nat := ds.foldl (fun n d => 10 * n + d.val) 0

/-- The text of a decimal number: an optional minus sign, the digits `ip` of the integer
part and, when `fp` is not empty, a point and the digits `fp` of the fraction. -/
def decimalText (negative : Bool) (ip fp : List (Fin 10)) : String :=
  String.mk ((if negative then ['-'] else []) ++ (digitsText ip
    ++ if fp = [] then [] else '.' :: digitsText fp))

/-- The number that the digits `ip` and `fp` of a decimal text denote, without the sign. -/
def decimalValue (ip fp : List (Fin 10)) : ℚ :=
  natOfDigits ip + (natOfDigits fp : ℚ) / 10 ^ fp.length

/-- A new form in which the amount `-5` has been entered. -/
def negativeAmountForm : FormState :=
  { type := "expense", amount := "-5", description := "Refund", category := "Shopping",
    transactionDate := { year := 2024, month := 1, day := 6 } }

/-- The second row of `twoOwners`, which belongs to `user_b`. -/
def foreignRow : Transaction :=
  { id := 2, user_id := "user_b", type := "income", amount := 900,
    category := some "Salary", transaction_date := { year := 2024, month := 1, day := 2 } }

/-- An edit form filled with an expense of 5. -/
def editForm : FormState :=
  { type := "expense", amount := "5", description := "Tea", category := "",
    transactionDate := { year := 2024, month := 2, day := 2 } }

/-- The row with identifier 2 after `editForm` has been submitted by `user_a`. -/
def overwrittenRow : Transaction :=
  { id := 2, user_id := "user_a", type := "expense", amount := 5, description := "Tea",
    category := some "Others", transaction_date := { year := 2024, month := 2, day := 2 } }

/-- A new form in which no number has been entered as the amount. -/
def emptyAmountForm : FormState :=
  { type := "expense", amount := "", description := "Tea", category := "Food",
    transactionDate := { year := 2024, month := 2, day := 2 } }

/-- A zone on UTC until 2024-03-31 01:00 UTC and one hour ahead of UTC from then on: the change
to summer time of that day in the zone Europe/London.  Local times from 02:00 of that day on have
the offset of one hour; the local hour from 01:00 to 02:00, which the clocks skip, is read with
the offset before the change. -/
def summerTime2024 : TimeZone :=
  { LocalTZA := fun t isUTC =>
      if isUTC then (if 1711846800000 ≤ t then 3600000 else 0)
      else (if 1711850400000 ≤ t then 3600000 else 0) }

/-- Two expenses, dated 2024-03-25 and 2024-03-26. -/
def lateMarch : List Transaction :=
  [ { type := "expense", amount := 10,
      transaction_date := { year := 2024, month := 3, day := 25 } },
    { type := "expense", amount := 20,
      transaction_date := { year := 2024, month := 3, day := 26 } } ]

/-! ## Theorems -/

theorem foldl_add_amount (l : List Transaction) (a : ℚ) :
    l.foldl (fun sum t => sum + t.amount) a = a + (l.map (·.amount)).sum := by
  induction l generalizing a with
  | nil => simp
  | cons t l ih => simp [ih, add_assoc]

/-- C1: the income shown by `BalanceCard` is the sum of the amounts of the transactions of type
income, the expense is the sum of the amounts of those of type expense, the balance is income
minus expense; the empty list gives three zeros and the example of the specification gives
5000, 1500 and 3500. -/
theorem BalanceCard_totals :
    (∀ ts : List Transaction,
      (BalanceCard ts).totalIncome = ((ts.filter fun t => t.type == "income").map (·.amount)).sum ∧
      (BalanceCard ts).totalExpense
        = ((ts.filter fun t => t.type == "expense").map (·.amount)).sum ∧
      (BalanceCard ts).balance = (BalanceCard ts).totalIncome - (BalanceCard ts).totalExpense) ∧
    BalanceCard [] = { totalIncome := 0, totalExpense := 0, balance := 0 } ∧
    BalanceCard specExample = { totalIncome := 5000, totalExpense := 1500, balance := 3500 } := by
  refine ⟨fun ts => ⟨?_, ?_, rfl⟩, ?_, ?_⟩
  · simp [BalanceCard, foldl_add_amount]
  · simp [BalanceCard, foldl_add_amount]
  · simp [BalanceCard]
  · decide!



/-! ### Calendar arithmetic -/

theorem DayFromYear_succ (y : Int) : DayFromYear (y + 1) = DayFromYear y + DaysInYear y := by
  unfold DayFromYear DaysInYear
  split_ifs <;> omega

theorem DaysInYear_cases (y : Int) : DaysInYear y = 365 ∨ DaysInYear y = 366 := by
  unfold DaysInYear
  split_ifs <;> simp

theorem DayFromYear_mono {y z : Int} (h : y ≤ z) : DayFromYear y ≤ DayFromYear z := by
  unfold DayFromYear
  omega

theorem DayFromYear_lt {y z : Int} (h : y < z) : DayFromYear (y + 1) ≤ DayFromYear z :=
  DayFromYear_mono (by omega)

theorem DayFromYear_estimate (d y : Int) (hy : y = 1970 + 400 * d / 146097) :
    DayFromYear (y - 1) ≤ d ∧ d < DayFromYear (y + 2) := by
  unfold DayFromYear
  constructor <;> omega

theorem YearFromDay_spec (d : Int) :
    DayFromYear (YearFromDay d) ≤ d ∧ d < DayFromYear (YearFromDay d + 1) := by
  obtain ⟨h3, h4⟩ := DayFromYear_estimate d _ rfl
  unfold YearFromDay
  simp only
  split_ifs with h1 h2
  · rw [sub_add_cancel]
    exact ⟨h3, h1⟩
  · refine ⟨h2, ?_⟩
    have e : (1970 + 400 * d / 146097 + 1 + 1 : Int) = 1970 + 400 * d / 146097 + 2 := by ring
    rw [e]
    exact h4
  · constructor <;> omega

theorem YearFromDay_unique {d y : Int} (h1 : DayFromYear y ≤ d) (h2 : d < DayFromYear (y + 1)) :
    YearFromDay d = y := by
  obtain ⟨h3, h4⟩ := YearFromDay_spec d
  by_contra hne
  rcases lt_or_gt_of_ne hne with h | h
  · have := DayFromYear_lt h
    omega
  · have := DayFromYear_lt h
    omega

theorem leapOf_cases (y : Int) : leapOf y = 0 ∨ leapOf y = 1 := by
  unfold leapOf
  split_ifs <;> simp

theorem DaysInYear_eq (y : Int) : DaysInYear y = 365 + leapOf y := by
  unfold leapOf
  rcases DaysInYear_cases y with h | h <;> simp [h]

theorem DayWithinYear_range (t : Int) :
    0 ≤ DayWithinYear t ∧ DayWithinYear t < 365 + InLeapYear t := by
  obtain ⟨h1, h2⟩ := YearFromDay_spec (Day t)
  rw [DayFromYear_succ, DaysInYear_eq] at h2
  unfold DayWithinYear InLeapYear YearFromTime
  constructor <;> omega

theorem monthOfDayWithinYear_range (dwy leap : Int) :
    0 ≤ monthOfDayWithinYear dwy leap ∧ monthOfDayWithinYear dwy leap ≤ 11 := by
  unfold monthOfDayWithinYear
  omega

theorem MonthFromTime_range (t : Int) : 0 ≤ MonthFromTime t ∧ MonthFromTime t ≤ 11 :=
  monthOfDayWithinYear_range _ _

theorem monthStart_le_of_month (dwy leap : Int) (h0 : 0 ≤ dwy) (hl : leap = 0 ∨ leap = 1) :
    monthStart (monthOfDayWithinYear dwy leap) leap ≤ dwy := by
  unfold monthOfDayWithinYear monthStart
  rcases hl with rfl | rfl <;> omega

theorem DateFromTime_pos (t : Int) : 1 ≤ DateFromTime t := by
  have h := monthStart_le_of_month (DayWithinYear t) (InLeapYear t) (DayWithinYear_range t).1
    (leapOf_cases _)
  unfold DateFromTime MonthFromTime
  omega

/-- Putting back the year and month of a time value with another day of the month moves the
day number by the difference of the days of the month. -/
theorem MakeDay_of_time (t x : Int) :
    MakeDay (YearFromTime t) (MonthFromTime t) x = Day t - DateFromTime t + x := by
  obtain ⟨h1, h2⟩ := MonthFromTime_range t
  have hq : MonthFromTime t / 12 = 0 := by omega
  have hr : MonthFromTime t % 12 = MonthFromTime t := by omega
  unfold MakeDay
  simp only [hq, hr, add_zero]
  unfold DateFromTime DayWithinYear InLeapYear
  omega

theorem monthOfDayWithinYear_monthStart {m leap dt : Int} (hm0 : 0 ≤ m) (hm : m ≤ 11)
    (hl : leap = 0 ∨ leap = 1) (hd0 : 1 ≤ dt) (hd : dt ≤ monthLength m leap) :
    monthOfDayWithinYear (monthStart m leap + (dt - 1)) leap = m := by
  interval_cases m <;> rcases hl with h | h <;> rw [h] at hd ⊢ <;>
    simp [monthStart, monthLength] at hd ⊢ <;> simp only [monthOfDayWithinYear] <;> omega

theorem monthStart_add_monthLength {m leap : Int} (hm0 : 0 ≤ m) (hm : m ≤ 11)
    (hl : leap = 0 ∨ leap = 1) :
    0 ≤ monthStart m leap ∧ monthStart m leap + monthLength m leap ≤ 365 + leap := by
  unfold monthStart monthLength
  rcases hl with h | h <;> rw [h] <;> omega

/-- The year, month and day of the month of a valid calendar date are recovered from its day
number. -/
theorem civil_of_day {y m dt D : Int} (hm0 : 0 ≤ m) (hm : m ≤ 11) (hd0 : 1 ≤ dt)
    (hd : dt ≤ monthLength m (leapOf y)) (hD : D = MakeDay y m dt) :
    YearFromDay D = y ∧ monthOfDayWithinYear (D - DayFromYear y) (leapOf y) = m
      ∧ D - DayFromYear y - monthStart m (leapOf y) + 1 = dt := by
  have hq : m / 12 = 0 := by omega
  have hr : m % 12 = m := by omega
  unfold MakeDay at hD
  simp only [hq, hr, add_zero] at hD
  have hl := leapOf_cases y
  have hms := monthStart_add_monthLength hm0 hm hl
  refine ⟨?_, ?_, by omega⟩
  · apply YearFromDay_unique
    · omega
    · rw [DayFromYear_succ, DaysInYear_eq]
      omega
  · have e : D - DayFromYear y = monthStart m (leapOf y) + (dt - 1) := by omega
    rw [e]
    exact monthOfDayWithinYear_monthStart hm0 hm hl hd0 hd


/-! ### Store dates -/

theorem daysInMonth_eq (y m : Nat) (h1 : 1 ≤ m) (h2 : m ≤ 12) :
    (daysInMonth y m : Int) = monthLength ((m : Int) - 1) (leapOf y) := by
  unfold daysInMonth monthLength leapOf
  interval_cases m <;> simp
  split_ifs <;> simp

theorem DateOnly.civil (d : DateOnly) :
    YearFromDay d.dayNumber = d.year
      ∧ monthOfDayWithinYear (d.dayNumber - DayFromYear d.year) (leapOf d.year) = (d.month : Int) - 1
      ∧ d.dayNumber - DayFromYear d.year - monthStart ((d.month : Int) - 1) (leapOf d.year) + 1
          = d.day := by
  have h1 := d.month_pos
  have h2 := d.month_le
  have h3 := d.day_pos
  have h4 := d.day_le
  have h5 := daysInMonth_eq d.year d.month h1 h2
  apply civil_of_day (by omega) (by omega) (by omega) (by omega)
  rfl

theorem DateOnly.dayNumber_range (d : DateOnly) :
    -719528 ≤ d.dayNumber ∧ d.dayNumber < 2932897 := by
  obtain ⟨h1, -, -⟩ := d.civil
  obtain ⟨h3, h4⟩ := YearFromDay_spec d.dayNumber
  rw [h1] at h3 h4
  have hy := d.year_le
  unfold DayFromYear at h3 h4
  constructor <;> omega

theorem DateOnly.toDate_eq (d : DateOnly) : d.toDate = some (d.dayNumber * msPerDay) := by
  obtain ⟨h1, h2⟩ := d.dayNumber_range
  unfold DateOnly.toDate TimeClip MakeDate msPerDay
  rw [if_neg]
  · simp
  · omega

/-- A time value lies on the calendar date `d` (in UTC) exactly when its year, month and day of
the month are those of `d`. -/
theorem civil_eq_iff_Day_eq (d : DateOnly) (t : Int) :
    (YearFromTime t = d.year ∧ MonthFromTime t + 1 = d.month ∧ DateFromTime t = d.day)
      ↔ Day t = d.dayNumber := by
  constructor
  · rintro ⟨hy, hm, hd⟩
    have h := MakeDay_of_time t (DateFromTime t)
    have hm' : (d.month : Int) - 1 = MonthFromTime t := by omega
    unfold DateOnly.dayNumber
    rw [← hy, hm', ← hd, h]
    omega
  · intro h
    obtain ⟨h1, h2, h3⟩ := d.civil
    rw [← h] at h1 h2 h3
    have hy : YearFromTime t = d.year := h1
    refine ⟨hy, ?_, ?_⟩
    · unfold MonthFromTime DayWithinYear InLeapYear
      rw [hy, h2]
      omega
    · unfold DateFromTime MonthFromTime DayWithinYear InLeapYear
      rw [hy, h2]
      omega


/-! ### The date part of `toISOString` -/

theorem DateFromTime_le (t : Int) : DateFromTime t ≤ 31 := by
  obtain ⟨h0, h1⟩ := DayWithinYear_range t
  have hl : InLeapYear t = 0 ∨ InLeapYear t = 1 := leapOf_cases _
  unfold DateFromTime MonthFromTime
  generalize DayWithinYear t = dwy at *
  unfold monthOfDayWithinYear monthStart
  rcases hl with h | h <;> rw [h] at h1 ⊢ <;> omega

theorem digitChar_inj {a b : Nat} (h : digitChar a = digitChar b) : a % 10 = b % 10 := by
  have key : ∀ i j : Fin 10, Char.ofNat (48 + i.val) = Char.ofNat (48 + j.val) → i = j := by
    decide
  have := key ⟨a % 10, Nat.mod_lt _ (by decide)⟩ ⟨b % 10, Nat.mod_lt _ (by decide)⟩ h
  exact congrArg Fin.val this

theorem pad2_inj {a b : Nat} (ha : a < 100) (hb : b < 100) (h : pad2 a = pad2 b) : a = b := by
  simp only [pad2, List.cons.injEq, and_true] at h
  have h1 := digitChar_inj h.1
  have h2 := digitChar_inj h.2
  omega

theorem pad4_inj {a b : Nat} (ha : a < 10000) (hb : b < 10000) (h : pad4 a = pad4 b) : a = b := by
  simp only [pad4, List.cons.injEq, and_true] at h
  have h1 := digitChar_inj h.1
  have h2 := digitChar_inj h.2.1
  have h3 := digitChar_inj h.2.2.1
  have h4 := digitChar_inj h.2.2.2
  omega

/-- The string of a store date equals the date part of `toISOString` of a time value exactly
when the year, month and day of the month of the time value (in UTC) are those of the date. -/
theorem toISO_eq_toISODate_iff (d : DateOnly) (t : Int) :
    d.toISO = toISODate t
      ↔ (YearFromTime t = d.year ∧ MonthFromTime t + 1 = d.month ∧ DateFromTime t = d.day) := by
  obtain ⟨hm0, hm1⟩ := MonthFromTime_range t
  have hd0 := DateFromTime_pos t
  have hd1 := DateFromTime_le t
  have hy := d.year_le
  have hmo := d.month_le
  have hda : d.day ≤ 31 := by
    have := d.day_le
    have h31 : daysInMonth d.year d.month ≤ 31 := by
      unfold daysInMonth
      split_ifs <;> omega
    omega
  unfold DateOnly.toISO toISODate
  rw [String.ext_iff]
  dsimp only
  constructor
  · intro h
    by_cases hr : 0 ≤ YearFromTime t ∧ YearFromTime t ≤ 9999
    · rw [isoYear, if_pos hr] at h
      have h6 : (pad4 d.year ++ '-' :: pad2 d.month).length
          = (pad4 (YearFromTime t).toNat ++ '-' :: pad2 (MonthFromTime t + 1).toNat).length := rfl
      obtain ⟨e0, e4⟩ := List.append_inj h h6
      rw [List.cons.injEq] at e4
      have h4 : (pad4 d.year).length = (pad4 (YearFromTime t).toNat).length := rfl
      obtain ⟨e1, e2⟩ := List.append_inj e0 h4
      rw [List.cons.injEq] at e2
      have f1 := pad4_inj (by omega) (by omega) e1
      have f2 := pad2_inj (by omega) (by omega) e2.2
      have f3 := pad2_inj (by omega) (by omega) e4.2
      omega
    · exfalso
      have hl := congrArg List.length h
      rw [isoYear, if_neg hr] at hl
      split_ifs at hl <;> simp [pad4, pad2, pad6] at hl
  · rintro ⟨e1, e2, e3⟩
    have hr : 0 ≤ YearFromTime t ∧ YearFromTime t ≤ 9999 := by omega
    rw [isoYear, if_pos hr]
    have f1 : (YearFromTime t).toNat = d.year := by omega
    have f2 : (MonthFromTime t + 1).toNat = d.month := by omega
    have f3 : (DateFromTime t).toNat = d.day := by omega
    rw [f1, f2, f3]

theorem Day_eq_iff (t D : Int) : Day t = D ↔ D * msPerDay ≤ t ∧ t < D * msPerDay + msPerDay := by
  unfold Day msPerDay
  omega

/-- C3: for every list and every instant `now`, the daily filter returns, in input order,
exactly the transactions whose `transaction_date` is the calendar date of `now` (the UTC date that
`toISOString` prints): the year, month and day of the month agree, which is to say that `now` lies
between midnight UTC of that date and the next midnight.  With transactions dated 2024-01-05 and
2024-01-06 and `now` on 2024-01-06 only the second one is kept. -/
theorem filterTransactions_daily :
    (∀ (tz : TimeZone) (now : Int) (ts : List Transaction),
      filterTransactions tz now ts "daily"
        = ts.filter fun t =>
            decide ((t.transaction_date.year : Int) = YearFromTime now
              ∧ (t.transaction_date.month : Int) = MonthFromTime now + 1
              ∧ (t.transaction_date.day : Int) = DateFromTime now)) ∧
    (∀ (now : Int) (d : DateOnly),
      ((d.year : Int) = YearFromTime now ∧ (d.month : Int) = MonthFromTime now + 1
          ∧ (d.day : Int) = DateFromTime now)
        ↔ (d.dayNumber * msPerDay ≤ now ∧ now < d.dayNumber * msPerDay + msPerDay)) ∧
    filterTransactions (fixedZone 0) 1704537000000
        [ { type := "expense", amount := 10,
            transaction_date := { year := 2024, month := 1, day := 5 } },
          { type := "expense", amount := 20,
            transaction_date := { year := 2024, month := 1, day := 6 } } ] "daily"
      = [ { type := "expense", amount := 20,
            transaction_date := { year := 2024, month := 1, day := 6 } } ] := by
  refine ⟨fun tz now ts => ?_, fun now d => ?_, by decide!⟩
  · simp only [filterTransactions]
    congr 1
    funext t
    rw [Bool.eq_iff_iff, beq_iff_eq, decide_eq_true_iff, toISO_eq_toISODate_iff]
    constructor <;> rintro ⟨h1, h2, h3⟩ <;> exact ⟨h1.symm, h2.symm, h3.symm⟩
  · rw [← Day_eq_iff, ← civil_eq_iff_Day_eq]
    constructor <;> rintro ⟨h1, h2, h3⟩ <;> exact ⟨h1.symm, h2.symm, h3.symm⟩

theorem MakeDate_Day_TimeWithinDay (t k : Int) :
    MakeDate (Day t - k) (TimeWithinDay t) = t - k * msPerDay := by
  unfold MakeDate Day TimeWithinDay msPerDay
  omega

/-- The cutoff of the weekly filter: the local time of `now` moved back by seven days, converted
to UTC with the offset that the zone assigns to that local time. -/
theorem weekAgo_eq (tz : TimeZone) (now : Int) :
    setDate tz (some now) ((getDate tz (some now)).map (· - 7))
      = TimeClip (UTC tz (LocalTime tz now - 7 * msPerDay)) := by
  simp only [getDate, Option.map_some', setDate]
  rw [MakeDay_of_time]
  have e : Day (LocalTime tz now) - DateFromTime (LocalTime tz now)
      + (DateFromTime (LocalTime tz now) - 7) = Day (LocalTime tz now) - 7 := by ring
  rw [e, MakeDate_Day_TimeWithinDay]

theorem dateGE_toDate_TimeClip (d : DateOnly) (c : Int) :
    dateGE d.toDate (TimeClip c)
      = decide (c.natAbs ≤ 8640000000000000 ∧ c ≤ d.dayNumber * msPerDay) := by
  rw [d.toDate_eq]
  unfold TimeClip
  by_cases h : c.natAbs > 8640000000000000
  · rw [if_pos h]
    simp only [dateGE]
    symm
    rw [decide_eq_false_iff_not]
    omega
  · rw [if_neg h]
    simp only [dateGE]
    rw [Bool.eq_iff_iff, decide_eq_true_iff, decide_eq_true_iff]
    constructor
    · intro h1
      exact ⟨by omega, h1⟩
    · exact fun h1 => h1.2

theorem weekly_filter_eq (tz : TimeZone) (now : Int) (ts : List Transaction) :
    filterTransactions tz now ts "weekly"
      = ts.filter fun t =>
          decide ((UTC tz (LocalTime tz now - 7 * msPerDay)).natAbs ≤ 8640000000000000
            ∧ UTC tz (LocalTime tz now - 7 * msPerDay)
                ≤ t.transaction_date.dayNumber * msPerDay) := by
  simp only [filterTransactions]
  rw [weekAgo_eq]
  congr 1
  funext t
  exact dateGE_toDate_TimeClip _ _

/-- C4, as amended: the weekly filter compares instants, not calendar dates.  Its cutoff is the
instant at which the local clock of the host shows the time of day of `now` on the local date
seven calendar days earlier, and the filter keeps exactly the transactions whose date, taken as
midnight UTC, is at or after the cutoff.  The cutoff is `now` minus seven times 24 hours plus the
difference between the offset of the zone at `now` and the offset at the cutoff, which is an
hour when a daylight-saving change lies between the two.  When the two offsets agree, the filter
keeps exactly the transactions dated later than the calendar date seven days before the UTC date
of `now`, and one dated exactly seven calendar days before `now` only when `now` is midnight UTC
to the millisecond.  (`hcut`: the cutoff is a valid `Date`.) -/
theorem filterTransactions_weekly (tz : TimeZone) (now : Int) (ts : List Transaction)
    (hcut : (UTC tz (LocalTime tz now - 7 * msPerDay)).natAbs ≤ 8640000000000000) :
    filterTransactions tz now ts "weekly"
        = ts.filter (fun t =>
            decide (UTC tz (LocalTime tz now - 7 * msPerDay)
              ≤ t.transaction_date.dayNumber * msPerDay))
    ∧ (Day (LocalTime tz now - 7 * msPerDay) = Day (LocalTime tz now) - 7
        ∧ TimeWithinDay (LocalTime tz now - 7 * msPerDay) = TimeWithinDay (LocalTime tz now))
    ∧ UTC tz (LocalTime tz now - 7 * msPerDay)
        = now - 7 * msPerDay
          + (tz.LocalTZA now true - tz.LocalTZA (LocalTime tz now - 7 * msPerDay) false)
    ∧ (tz.LocalTZA (LocalTime tz now - 7 * msPerDay) false = tz.LocalTZA now true →
        filterTransactions tz now ts "weekly"
          = ts.filter fun t =>
              decide (Day now - 7 < t.transaction_date.dayNumber
                ∨ (Day now - 7 = t.transaction_date.dayNumber ∧ TimeWithinDay now = 0))) := by
  have hoff : UTC tz (LocalTime tz now - 7 * msPerDay)
      = now - 7 * msPerDay
        + (tz.LocalTZA now true - tz.LocalTZA (LocalTime tz now - 7 * msPerDay) false) := by
    unfold UTC
    generalize tz.LocalTZA (LocalTime tz now - 7 * msPerDay) false = o
    unfold LocalTime
    ring
  refine ⟨?_, ⟨?_, ?_⟩, hoff, ?_⟩
  · rw [weekly_filter_eq]
    congr 1
    funext t
    rw [Bool.eq_iff_iff, decide_eq_true_iff, decide_eq_true_iff]
    exact ⟨fun h => h.2, fun h => ⟨hcut, h⟩⟩
  · unfold Day msPerDay
    omega
  · unfold TimeWithinDay msPerDay
    omega
  · intro hsame
    rw [hoff, hsame] at hcut
    rw [weekly_filter_eq, hoff, hsame]
    congr 1
    funext t
    rw [Bool.eq_iff_iff, decide_eq_true_iff, decide_eq_true_iff]
    generalize t.transaction_date.dayNumber = dn
    generalize tz.LocalTZA now true = o at *
    unfold Day TimeWithinDay msPerDay at *
    constructor
    · rintro ⟨-, h⟩
      omega
    · intro h
      exact ⟨hcut, by omega⟩

/-- The amended C4 across the change to summer time: at 2024-03-31 23:30 UTC, which is 00:30 of
April 1 on the local clock, the cutoff is 00:30 of March 25 on the local clock, then still on
UTC: 2024-03-25 00:30 UTC, an hour later than seven times 24 hours before `now`.  The
transaction dated 2024-03-25 is dropped and the one dated 2024-03-26 is kept.  The last part is
the case of equal offsets, at noon UTC of 2024-01-13 on the example of the specification. -/
theorem filterTransactions_weekly_witness :
    (UTC summerTime2024 (LocalTime summerTime2024 1711927800000 - 7 * msPerDay)).natAbs
      ≤ 8640000000000000 ∧
    (filterTransactions summerTime2024 1711927800000 lateMarch "weekly"
        = lateMarch.filter (fun t =>
            decide (UTC summerTime2024 (LocalTime summerTime2024 1711927800000 - 7 * msPerDay)
              ≤ t.transaction_date.dayNumber * msPerDay))
    ∧ (Day (LocalTime summerTime2024 1711927800000 - 7 * msPerDay)
          = Day (LocalTime summerTime2024 1711927800000) - 7
        ∧ TimeWithinDay (LocalTime summerTime2024 1711927800000 - 7 * msPerDay)
          = TimeWithinDay (LocalTime summerTime2024 1711927800000))
    ∧ UTC summerTime2024 (LocalTime summerTime2024 1711927800000 - 7 * msPerDay)
        = 1711927800000 - 7 * msPerDay
          + (summerTime2024.LocalTZA 1711927800000 true
              - summerTime2024.LocalTZA
                  (LocalTime summerTime2024 1711927800000 - 7 * msPerDay) false)
    ∧ (summerTime2024.LocalTZA (LocalTime summerTime2024 1711927800000 - 7 * msPerDay) false
          = summerTime2024.LocalTZA 1711927800000 true →
        filterTransactions summerTime2024 1711927800000 lateMarch "weekly"
          = lateMarch.filter fun t =>
              decide (Day 1711927800000 - 7 < t.transaction_date.dayNumber
                ∨ (Day 1711927800000 - 7 = t.transaction_date.dayNumber
                    ∧ TimeWithinDay 1711927800000 = 0)))) ∧
    toISODate 1711927800000 = "2024-03-31" ∧
    LocalTime summerTime2024 1711927800000 = 1711931400000 ∧
    UTC summerTime2024 (LocalTime summerTime2024 1711927800000 - 7 * msPerDay)
      = 1711326600000 ∧
    (1711927800000 - 7 * msPerDay : Int) = 1711323000000 ∧
    (({ year := 2024, month := 3, day := 25 } : DateOnly).dayNumber * msPerDay
      = 1711324800000) ∧
    filterTransactions summerTime2024 1711927800000 lateMarch "weekly"
      = [ { type := "expense", amount := 20,
            transaction_date := { year := 2024, month := 3, day := 26 } } ] ∧
    filterTransactions (fixedZone 0) 1705147200000 specExample "weekly"
      = specExample.filter fun t =>
          decide (Day 1705147200000 - 7 < t.transaction_date.dayNumber
            ∨ (Day 1705147200000 - 7 = t.transaction_date.dayNumber
                ∧ TimeWithinDay 1705147200000 = 0)) :=
  ⟨by decide, filterTransactions_weekly summerTime2024 1711927800000 lateMarch (by decide),
    by decide!, by decide, by decide, by decide, by decide, by decide!,
    (filterTransactions_weekly (fixedZone 0) 1705147200000 specExample (by decide)).2.2.2 rfl⟩

/-- Against C4 as stated: at noon UTC of 2024-01-13, in a zone of constant offset, a transaction
dated 2024-01-06, exactly seven calendar days before the date of `now`, is not kept by the weekly
filter. -/
theorem filterTransactions_weekly_counterexample :
    toISODate 1705147200000 = "2024-01-13" ∧
    (({ year := 2024, month := 1, day := 6 } : DateOnly).dayNumber = Day 1705147200000 - 7) ∧
    filterTransactions (fixedZone 0) 1705147200000
      [ { type := "expense", amount := 10,
          transaction_date := { year := 2024, month := 1, day := 6 } } ] "weekly" = [] := by
  decide!

theorem monthAgo_march31 (tz : TimeZone) (now : Int) (hM : MonthFromTime (LocalTime tz now) = 2)
    (hD : DateFromTime (LocalTime tz now) = 31) :
    MakeDay (YearFromTime (LocalTime tz now)) (MonthFromTime (LocalTime tz now) - 1)
        (DateFromTime (LocalTime tz now))
      = Day (LocalTime tz now) - (28 + leapOf (YearFromTime (LocalTime tz now)))
    ∧ MakeDay (YearFromTime (LocalTime tz now)) 2 (3 - leapOf (YearFromTime (LocalTime tz now)))
      = Day (LocalTime tz now) - (28 + leapOf (YearFromTime (LocalTime tz now)))
    ∧ MakeDay (YearFromTime (LocalTime tz now)) 2 1
      = Day (LocalTime tz now) - 30 := by
  have h := MakeDay_of_time (LocalTime tz now) 31
  rw [hM, hD] at h
  rw [hM, hD]
  generalize YearFromTime (LocalTime tz now) = Y at *
  generalize Day (LocalTime tz now) = D at *
  unfold MakeDay at *
  norm_num at *
  simp only [monthStart] at *
  norm_num at *
  refine ⟨?_, ?_, ?_⟩ <;> omega

/-- C5, as amended: the cutoff of the monthly filter is `now` with the month decreased by one
and no rollback: a day of the month that the previous month lacks carries over into the following
month.  When the local date of `now` is March 31 the cutoff is March 3 of the same year (March 2
in a leap year) at the local time of day of `now`, and every transaction that the filter keeps
is dated after March 1, so that one dated on the last day of February or on March 1 is dropped.
This holds in every time zone, with or without daylight saving.  (`htz`: local time is less than
a day ahead of UTC.) -/
theorem monthly_cutoff_march31 (tz : TimeZone) (now : Int)
    (hM : MonthFromTime (LocalTime tz now) = 2) (hD : DateFromTime (LocalTime tz now) = 31)
    (htz : ∀ t, tz.LocalTZA t false < msPerDay) :
    setMonth tz (some now) ((getMonth tz (some now)).map (· - 1))
        = TimeClip (UTC tz (MakeDate
            (MakeDay (YearFromTime (LocalTime tz now)) 2
              (3 - leapOf (YearFromTime (LocalTime tz now))))
            (TimeWithinDay (LocalTime tz now))))
    ∧ (∀ (ts : List Transaction) (t : Transaction),
        t ∈ filterTransactions tz now ts "monthly" →
          MakeDay (YearFromTime (LocalTime tz now)) 2 1 < t.transaction_date.dayNumber) := by
  obtain ⟨h1, h2, h3⟩ := monthAgo_march31 tz now hM hD
  have hcut : setMonth tz (some now) ((getMonth tz (some now)).map (· - 1))
      = TimeClip (UTC tz (LocalTime tz now
          - (28 + leapOf (YearFromTime (LocalTime tz now))) * msPerDay)) := by
    simp only [getMonth, Option.map_some', setMonth]
    rw [h1, MakeDate_Day_TimeWithinDay]
  constructor
  · rw [hcut, h2, MakeDate_Day_TimeWithinDay]
  · intro ts t ht
    simp only [filterTransactions] at ht
    rw [hcut, List.mem_filter, dateGE_toDate_TimeClip, decide_eq_true_iff] at ht
    obtain ⟨-, -, hle⟩ := ht
    rw [h3]
    have hl := leapOf_cases (YearFromTime (LocalTime tz now))
    have ho := htz (LocalTime tz now
      - (28 + leapOf (YearFromTime (LocalTime tz now))) * msPerDay)
    unfold UTC at hle
    generalize tz.LocalTZA (LocalTime tz now
      - (28 + leapOf (YearFromTime (LocalTime tz now))) * msPerDay) false = o at *
    generalize t.transaction_date.dayNumber = dn at *
    generalize leapOf (YearFromTime (LocalTime tz now)) = l at *
    generalize LocalTime tz now = L at *
    unfold Day msPerDay at *
    rcases hl with rfl | rfl <;> omega

/-- The amended C5 at 2023-03-31 17:30 local time in a zone five and a half hours ahead of UTC. -/
theorem monthly_cutoff_march31_witness :
    MonthFromTime (LocalTime (fixedZone 19800000) 1680264000000) = 2 ∧
    DateFromTime (LocalTime (fixedZone 19800000) 1680264000000) = 31 ∧
    (∀ t, (fixedZone 19800000).LocalTZA t false < msPerDay) ∧
    (setMonth (fixedZone 19800000) (some 1680264000000)
          ((getMonth (fixedZone 19800000) (some 1680264000000)).map (· - 1))
        = TimeClip (UTC (fixedZone 19800000) (MakeDate
            (MakeDay (YearFromTime (LocalTime (fixedZone 19800000) 1680264000000)) 2
              (3 - leapOf (YearFromTime (LocalTime (fixedZone 19800000) 1680264000000))))
            (TimeWithinDay (LocalTime (fixedZone 19800000) 1680264000000))))
    ∧ (∀ (ts : List Transaction) (t : Transaction),
        t ∈ filterTransactions (fixedZone 19800000) 1680264000000 ts "monthly" →
          MakeDay (YearFromTime (LocalTime (fixedZone 19800000) 1680264000000)) 2 1
            < t.transaction_date.dayNumber)) :=
  ⟨by decide, by decide, fun _ => by simp [fixedZone, msPerDay],
    monthly_cutoff_march31 (fixedZone 19800000) 1680264000000 (by decide) (by decide)
      (fun _ => by simp [fixedZone, msPerDay])⟩

/-- Against C5 as stated: at noon UTC of 2023-03-31 the cutoff of the monthly filter is on
2023-03-03, not on the last day of February, and transactions dated 2023-02-28 and 2023-03-01
are not kept. -/
theorem monthly_rollback_counterexample :
    toISODate 1680264000000 = "2023-03-31" ∧
    (setMonth (fixedZone 0) (some 1680264000000)
        ((getMonth (fixedZone 0) (some 1680264000000)).map (· - 1))).map
        toISODate = some "2023-03-03" ∧
    filterTransactions (fixedZone 0) 1680264000000
      [ { type := "expense", amount := 10,
          transaction_date := { year := 2023, month := 2, day := 28 } },
        { type := "expense", amount := 20,
          transaction_date := { year := 2023, month := 3, day := 1 } } ] "monthly" = [] := by
  decide!

/-- C6: for the period `all`, and for every period value other than `daily`, `weekly`,
`monthly` and `yearly`, the period filter returns its input list unchanged. -/
theorem filterTransactions_all (tz : TimeZone) (now : Int) (ts : List Transaction) (period : String)
    (h1 : period ≠ "daily") (h2 : period ≠ "weekly") (h3 : period ≠ "monthly")
    (h4 : period ≠ "yearly") :
    filterTransactions tz now ts period = ts := by
  unfold filterTransactions
  split <;> first | rfl | contradiction

/-- C6 at the period `all`, on the example of the specification. -/
theorem filterTransactions_all_witness :
    "all" ≠ "daily" ∧ "all" ≠ "weekly" ∧ "all" ≠ "monthly" ∧ "all" ≠ "yearly" ∧
    filterTransactions (fixedZone 0) 1705147200000 specExample "all" = specExample :=
  ⟨by decide, by decide, by decide, by decide,
    filterTransactions_all (fixedZone 0) 1705147200000 specExample "all" (by decide) (by decide)
      (by decide) (by decide)⟩

/-! ### Grouping into a dictionary -/

theorem firstSeen_concat (l : List String) (c : String) :
    firstSeen (l ++ [c]) = if c ∈ firstSeen l then firstSeen l else firstSeen l ++ [c] := by
  simp [firstSeen, List.foldl_append]

theorem mem_firstSeen {l : List String} {c : String} : c ∈ firstSeen l ↔ c ∈ l := by
  induction l using List.reverseRecOn with
  | nil => simp [firstSeen]
  | append_singleton l a ih =>
    rw [firstSeen_concat]
    split_ifs with h
    · rw [List.mem_append, List.mem_singleton, ih]
      constructor
      · exact Or.inl
      · rintro (h1 | rfl)
        · exact h1
        · exact ih.1 h
    · simp only [List.mem_append, List.mem_singleton, ih]

theorem firstSeen_nodup (l : List String) : (firstSeen l).Nodup := by
  induction l using List.reverseRecOn with
  | nil => simp [firstSeen]
  | append_singleton l a ih =>
    rw [firstSeen_concat]
    split_ifs with h
    · exact ih
    · rw [List.nodup_append]
      refine ⟨ih, List.nodup_singleton a, ?_⟩
      intro x hx hx'
      rw [List.mem_singleton] at hx'
      exact h (hx' ▸ hx)

/-- In `firstSeen l` the keys stand in the order of their first occurrences in `l`. -/
theorem firstSeen_pairwise (l : List String) :
    (firstSeen l).Pairwise fun a b => l.indexOf a < l.indexOf b := by
  induction l using List.reverseRecOn with
  | nil => simp [firstSeen]
  | append_singleton l c ih =>
    have hmono : (firstSeen l).Pairwise fun a b =>
        (l ++ [c]).indexOf a < (l ++ [c]).indexOf b := by
      refine ih.imp_of_mem ?_
      intro a b ha hb hab
      rw [List.indexOf_append_of_mem (mem_firstSeen.1 ha),
        List.indexOf_append_of_mem (mem_firstSeen.1 hb)]
      exact hab
    rw [firstSeen_concat]
    split_ifs with h
    · exact hmono
    · rw [List.pairwise_append]
      refine ⟨hmono, List.pairwise_singleton _ _, ?_⟩
      intro a ha b hb
      rw [List.mem_singleton] at hb
      subst hb
      have hc : b ∉ l := fun hc => h (mem_firstSeen.2 hc)
      rw [List.indexOf_append_of_mem (mem_firstSeen.1 ha), List.indexOf_append_of_not_mem hc]
      have := List.indexOf_lt_length.2 (mem_firstSeen.1 ha)
      omega

section group
variable {τ β : Type} (key : τ → String) (init : τ → β) (upd : β → τ → β)

theorem lookup_eq_none_iff_keys {obj : JSObject β} {k : String} :
    obj.lookup k = none ↔ k ∉ obj.map Prod.fst := by
  rw [List.lookup_eq_none_iff]
  simp only [bne_iff_ne, ne_eq, List.mem_map, not_exists, not_and]
  constructor
  · intro h p hp e
    exact h p hp e.symm
  · intro h p hp e
    exact h p hp e.symm

theorem map_fst_update (obj : JSObject β) (k : String) (v : β) :
    (obj.map fun p => if p.1 == k then (k, v) else p).map Prod.fst = obj.map Prod.fst := by
  rw [List.map_map]
  apply List.map_congr_left
  intro p _
  simp only [Function.comp]
  split_ifs with h
  · exact (beq_iff_eq.1 h).symm
  · rfl

theorem lookup_cons_of_ne {k a : String} {b : β} {es : JSObject β} (h : k ≠ a) :
    List.lookup k ((a, b) :: es) = List.lookup k es := by
  rw [List.lookup_cons]
  have : (k == a) = false := by simpa using h
  rw [this]

theorem lookup_update (obj : JSObject β) (k k' : String) (v : β) :
    (obj.map fun p => if p.1 == k then (k, v) else p).lookup k'
      = if k' = k then (obj.lookup k).map (fun _ => v) else obj.lookup k' := by
  induction obj with
  | nil => simp
  | cons p obj ih =>
    obtain ⟨a, b⟩ := p
    rw [List.map_cons]
    by_cases hak : a = k
    · subst hak
      simp only [beq_self_eq_true, if_true]
      by_cases hk : k' = a
      · subst hk
        simp
      · rw [lookup_cons_of_ne hk, ih, if_neg hk, if_neg hk, lookup_cons_of_ne hk]
    · have hak' : (a == k) = false := by simpa using hak
      simp only [hak', Bool.false_eq_true, if_false]
      by_cases hk : k' = k
      · subst hk
        have hne : k' ≠ a := fun h => hak h.symm
        rw [lookup_cons_of_ne hne, ih, if_pos rfl, if_pos rfl, lookup_cons_of_ne hne]
      · rw [if_neg hk]
        by_cases hka : k' = a
        · subst hka
          simp
        · rw [lookup_cons_of_ne hka, ih, if_neg hk, lookup_cons_of_ne hka]

theorem groupStep_keys (obj : JSObject β) (t : τ) :
    (groupStep key init upd obj t).map Prod.fst
      = if key t ∈ obj.map Prod.fst then obj.map Prod.fst else obj.map Prod.fst ++ [key t] := by
  unfold groupStep
  cases h : obj.lookup (key t) with
  | none =>
    rw [lookup_eq_none_iff_keys] at h
    simp [h]
  | some v =>
    have : key t ∈ obj.map Prod.fst := by
      by_contra hc
      rw [← lookup_eq_none_iff_keys, h] at hc
      exact Option.some_ne_none _ hc
    simp only [this, if_true]
    exact map_fst_update _ _ _

theorem groupStep_lookup (obj : JSObject β) (t : τ) (k : String) :
    (groupStep key init upd obj t).lookup k
      = if key t = k then some (groupNext init upd (obj.lookup k) t) else obj.lookup k := by
  unfold groupStep
  cases h : obj.lookup (key t) with
  | none =>
    simp only [List.lookup_append]
    by_cases hk : key t = k
    · subst hk
      simp [h, groupNext]
    · have : k ≠ key t := fun e => hk e.symm
      rw [lookup_cons_of_ne this, if_neg hk]
      simp
  | some v =>
    simp only [lookup_update]
    by_cases hk : key t = k
    · subst hk
      simp [h, groupNext]
    · have : ¬ k = key t := fun e => hk e.symm
      simp [hk, this]

theorem foldl_groupStep_keys (l : List τ) :
    (l.foldl (groupStep key init upd) []).map Prod.fst = firstSeen (l.map key) := by
  induction l using List.reverseRecOn with
  | nil => simp [firstSeen]
  | append_singleton l t ih =>
    rw [List.foldl_append, List.map_append, List.map_singleton, firstSeen_concat]
    simp only [List.foldl_cons, List.foldl_nil]
    rw [groupStep_keys, ih]

theorem foldl_groupStep_lookup (l : List τ) (k : String) :
    (l.foldl (groupStep key init upd) []).lookup k = groupValue key init upd k l := by
  induction l using List.reverseRecOn with
  | nil => simp [groupValue]
  | append_singleton l t ih =>
    unfold groupValue at ih ⊢
    rw [List.foldl_append, List.foldl_append]
    simp only [List.foldl_cons, List.foldl_nil]
    rw [groupStep_lookup, ih]

/-- With distinct keys, every property is the one that its key reads. -/
theorem lookup_of_mem {obj : JSObject β} (hnd : (obj.map Prod.fst).Nodup) {p : String × β}
    (hp : p ∈ obj) : obj.lookup p.1 = some p.2 := by
  induction obj with
  | nil => simp at hp
  | cons q obj ih =>
    obtain ⟨a, b⟩ := q
    rw [List.map_cons, List.nodup_cons] at hnd
    rw [List.lookup_cons]
    rcases List.mem_cons.1 hp with rfl | h
    · simp
    · have hne : p.1 ≠ a := by
        intro e
        have hm : p.1 ∈ obj.map Prod.fst := List.mem_map_of_mem Prod.fst h
        rw [e] at hm
        exact hnd.1 hm
      rw [← List.lookup_cons, lookup_cons_of_ne hne]
      exact ih hnd.2 h

end group

/-! ### The dictionary of `getCategoryData` -/

theorem any_key_iff {β : Type} (obj : JSObject β) (k : String) :
    obj.any (fun p => p.1 == k) = (obj.lookup k).isSome := by
  rw [Bool.eq_iff_iff, List.lookup_isSome_iff, List.any_eq_true]
  constructor
  · rintro ⟨p, hp, h⟩
    exact ⟨p, hp, beq_iff_eq.2 (beq_iff_eq.1 h).symm⟩
  · rintro ⟨p, hp, h⟩
    exact ⟨p, hp, beq_iff_eq.2 (beq_iff_eq.1 h).symm⟩

theorem set_eq {β : Type} (obj : JSObject β) (k : String) (v : β) (hk : k ≠ "__proto__") :
    obj.set k v = match obj.lookup k with
      | some _ => obj.map fun p => if p.1 == k then (k, v) else p
      | none => obj ++ [(k, v)] := by
  unfold JSObject.set
  rw [if_neg hk, any_key_iff]
  cases obj.lookup k <;> simp

theorem get_eq {β : Type} (obj : JSObject β) (k : String) (hk : k ∉ objectPrototypeKeys) :
    obj.get k = match obj.lookup k with
      | some v => Lookup.own v
      | none => Lookup.undefined := by
  unfold JSObject.get
  cases obj.lookup k <;> simp [hk]

theorem ne_proto_of_not_mem {k : String} (hk : k ∉ objectPrototypeKeys) : k ≠ "__proto__" := by
  rintro rfl
  exact hk (by decide)

theorem categoryStep_eq_groupStep (obj : JSObject JSVal) (t : Transaction)
    (h : categoryOf t ∉ objectPrototypeKeys) :
    categoryStep obj t = groupStep categoryOf categoryInit categoryUpd obj t := by
  unfold categoryStep groupStep
  simp only
  rw [set_eq _ _ _ (ne_proto_of_not_mem h), get_eq _ _ h]
  cases hl : obj.lookup (categoryOf t) with
  | none => rfl
  | some v =>
    cases v <;> rfl

theorem foldl_categoryStep (l : List Transaction)
    (h : ∀ t ∈ l, categoryOf t ∉ objectPrototypeKeys) :
    l.foldl categoryStep [] = l.foldl (groupStep categoryOf categoryInit categoryUpd) [] :=
  List.foldl_ext _ _ _ fun obj t ht => categoryStep_eq_groupStep obj t (h t ht)

theorem categorySum_concat (c : String) (l : List Transaction) (t : Transaction) :
    categorySum c (l ++ [t])
      = categorySum c l + if categoryOf t = c then t.amount else 0 := by
  unfold categorySum
  rw [List.filter_append, List.map_append, List.sum_append]
  by_cases h : categoryOf t = c <;> simp [h]

theorem groupValue_category (c : String) (l : List Transaction) :
    groupValue categoryOf categoryInit categoryUpd c l
      = if c ∈ l.map categoryOf then some (JSVal.num (categorySum c l)) else none := by
  induction l using List.reverseRecOn with
  | nil => simp [groupValue]
  | append_singleton l t ih =>
    have e : groupValue categoryOf categoryInit categoryUpd c (l ++ [t])
        = if categoryOf t = c then
            some (groupNext categoryInit categoryUpd
              (groupValue categoryOf categoryInit categoryUpd c l) t)
          else groupValue categoryOf categoryInit categoryUpd c l := by
      simp [groupValue, List.foldl_append]
    rw [e, ih, categorySum_concat]
    by_cases hc : categoryOf t = c
    · simp only [hc, if_true, List.map_append, List.map_singleton, List.mem_append,
        List.mem_singleton, or_true]
      by_cases hm : c ∈ l.map categoryOf
      · simp only [hm, if_true, groupNext, categoryUpd]
        congr 2
        split_ifs with h0
        · rw [h0]
        · rfl
      · have h0 : categorySum c l = 0 := by
          unfold categorySum
          rw [List.filter_eq_nil_iff.2]
          · simp
          · intro a ha hca
            exact hm (List.mem_map.2 ⟨a, ha, by simpa using hca⟩)
        simp only [hm, if_false, groupNext, categoryInit, h0]
    · have hc' : ¬ c = categoryOf t := fun e => hc e.symm
      simp [hc, hc']

/-- The dictionary that `getCategoryData` builds, when no category is the name of an inherited
property: its keys are the categories in the order of their first occurrence, and the value
under a key is the sum of the amounts of that category. -/
theorem categoryMap_spec (l : List Transaction)
    (h : ∀ t ∈ l, categoryOf t ∉ objectPrototypeKeys) :
    (l.foldl categoryStep []).map Prod.fst = firstSeen (l.map categoryOf)
      ∧ ∀ p ∈ l.foldl categoryStep [], p.2 = JSVal.num (categorySum p.1 l) := by
  rw [foldl_categoryStep l h]
  have hk := foldl_groupStep_keys categoryOf categoryInit categoryUpd l
  refine ⟨hk, ?_⟩
  intro p hp
  have hnd : ((l.foldl (groupStep categoryOf categoryInit categoryUpd) []).map Prod.fst).Nodup := by
    rw [hk]
    exact firstSeen_nodup _
  have h1 := lookup_of_mem hnd hp
  rw [foldl_groupStep_lookup, groupValue_category] at h1
  split_ifs at h1
  · exact (Option.some.inj h1).symm

/-! ### Sorting and enumeration order -/

section sorting
variable {α : Type} (r : α → α → Prop) [DecidableRel r]

/-- Stability of insertion: whatever relation `P` the inserted element has to the elements behind
it in the input, an element that ends up in front of another either was in front of it in the
input or had to overtake it. -/
theorem pairwise_orderedInsert (P : α → α → Prop) (x : α) (L : List α)
    (hx : ∀ y ∈ L, P x y) (hL : L.Pairwise fun a b => P a b ∨ ¬ r b a) :
    (L.orderedInsert r x).Pairwise fun a b => P a b ∨ ¬ r b a := by
  induction L with
  | nil => simp
  | cons b L ih =>
    rw [List.orderedInsert]
    rw [List.pairwise_cons] at hL
    split_ifs with hrb
    · rw [List.pairwise_cons]
      exact ⟨fun y hy => Or.inl (hx y hy), List.pairwise_cons.2 hL⟩
    · rw [List.pairwise_cons]
      refine ⟨?_, ih (fun y hy => hx y (List.mem_cons_of_mem _ hy)) hL.2⟩
      intro z hz
      rcases (List.mem_orderedInsert r).1 hz with rfl | hz
      · exact Or.inr hrb
      · exact hL.1 z hz

theorem pairwise_insertionSort_stable (P : α → α → Prop) (l : List α) (hl : l.Pairwise P) :
    (l.insertionSort r).Pairwise fun a b => P a b ∨ ¬ r b a := by
  induction l with
  | nil => simp
  | cons x l ih =>
    rw [List.pairwise_cons] at hl
    rw [List.insertionSort]
    exact pairwise_orderedInsert r P x _
      (fun y hy => hl.1 y ((List.mem_insertionSort r).1 hy)) (ih hl.2)

theorem sorted_orderedInsert_of (x : α) (L : List α)
    (htot : ∀ b ∈ L, r x b ∨ r b x)
    (htr : ∀ b ∈ L, ∀ c ∈ L, r x b → r b c → r x c)
    (hL : L.Pairwise r) : (L.orderedInsert r x).Pairwise r := by
  induction L with
  | nil => simp
  | cons b L ih =>
    rw [List.orderedInsert]
    rw [List.pairwise_cons] at hL
    split_ifs with hrb
    · rw [List.pairwise_cons]
      refine ⟨?_, List.pairwise_cons.2 hL⟩
      intro y hy
      rcases List.mem_cons.1 hy with rfl | hy
      · exact hrb
      · exact htr b (List.mem_cons_self _ _) y (List.mem_cons_of_mem _ hy) hrb (hL.1 y hy)
    · rw [List.pairwise_cons]
      refine ⟨?_, ih (fun c hc => htot c (List.mem_cons_of_mem _ hc))
        (fun c hc d hd => htr c (List.mem_cons_of_mem _ hc) d (List.mem_cons_of_mem _ hd)) hL.2⟩
      intro z hz
      rcases (List.mem_orderedInsert r).1 hz with rfl | hz
      · exact (htot b (List.mem_cons_self _ _)).resolve_left hrb
      · exact hL.1 z hz

/-- Insertion sort sorts as soon as the relation is total and transitive on the elements of the
list. -/
theorem sorted_insertionSort_of (l : List α)
    (htot : ∀ a ∈ l, ∀ b ∈ l, r a b ∨ r b a)
    (htr : ∀ a ∈ l, ∀ b ∈ l, ∀ c ∈ l, r a b → r b c → r a c) :
    (l.insertionSort r).Pairwise r := by
  induction l with
  | nil => simp
  | cons x l ih =>
    rw [List.insertionSort]
    apply sorted_orderedInsert_of
    · intro b hb
      exact htot x (List.mem_cons_self _ _) b
        (List.mem_cons_of_mem _ ((List.mem_insertionSort r).1 hb))
    · intro b hb c hc
      exact htr x (List.mem_cons_self _ _) b
        (List.mem_cons_of_mem _ ((List.mem_insertionSort r).1 hb)) c
        (List.mem_cons_of_mem _ ((List.mem_insertionSort r).1 hc))
    · exact ih (fun a ha b hb => htot a (List.mem_cons_of_mem _ ha) b (List.mem_cons_of_mem _ hb))
        (fun a ha b hb c hc => htr a (List.mem_cons_of_mem _ ha) b (List.mem_cons_of_mem _ hb) c
          (List.mem_cons_of_mem _ hc))

end sorting

theorem jsSort_perm {α : Type} (cmp : α → α → Option Int) (l : List α) :
    List.Perm (jsSort cmp l) l :=
  List.perm_insertionSort _ l

theorem entries_perm {β : Type} (obj : JSObject β) : List.Perm obj.entries obj := by
  unfold JSObject.entries
  refine ((List.perm_insertionSort _ _).append_right _).trans ?_
  have h := List.filter_append_perm (fun p : String × β => (arrayIndex? p.1).isSome) obj
  have e : (fun p : String × β => !(arrayIndex? p.1).isSome)
      = fun p : String × β => (arrayIndex? p.1).isNone := by
    funext p
    cases arrayIndex? p.1 <;> rfl
  rw [e] at h
  exact h

theorem entries_pairwise {β : Type} (obj : JSObject β) (cats : List String)
    (h : obj.Pairwise fun p q => cats.indexOf p.1 < cats.indexOf q.1) :
    obj.entries.Pairwise fun p q => entryOrder cats p.1 q.1 := by
  unfold JSObject.entries
  rw [List.pairwise_append]
  refine ⟨?_, ?_, ?_⟩
  · have hs := sorted_insertionSort_of
      (fun p q : String × β => (arrayIndex? p.1).getD 0 ≤ (arrayIndex? q.1).getD 0)
      (obj.filter fun p => (arrayIndex? p.1).isSome)
      (fun a _ b _ => le_total _ _) (fun a _ b _ c _ h1 h2 => le_trans h1 h2)
    refine hs.imp_of_mem ?_
    intro p q hp hq hpq
    rw [List.mem_insertionSort, List.mem_filter] at hp hq
    unfold entryOrder
    cases hi : arrayIndex? p.1 with
    | none => simp [hi] at hp
    | some i =>
      cases hj : arrayIndex? q.1 with
      | none => simp [hj] at hq
      | some j => simpa [hi, hj] using hpq
  · have hsub : (obj.filter fun p => (arrayIndex? p.1).isNone).Pairwise
        fun p q => cats.indexOf p.1 < cats.indexOf q.1 := h.sublist (List.filter_sublist _)
    refine hsub.imp_of_mem ?_
    intro p q hp hq hpq
    rw [List.mem_filter] at hp hq
    unfold entryOrder
    cases hi : arrayIndex? p.1 with
    | some i => simp [hi] at hp
    | none =>
      cases hj : arrayIndex? q.1 with
      | some j => simp [hj] at hq
      | none => simpa using hpq
  · intro p hp q hq
    rw [List.mem_insertionSort, List.mem_filter] at hp
    rw [List.mem_filter] at hq
    unfold entryOrder
    cases hi : arrayIndex? p.1 with
    | none => simp [hi] at hp
    | some i =>
      cases hj : arrayIndex? q.1 with
      | some j => simp [hj] at hq
      | none => trivial

/-! ### The category breakdown -/

theorem categoryMap_eq (l : List Transaction)
    (h : ∀ t ∈ l, categoryOf t ∉ objectPrototypeKeys) :
    l.foldl categoryStep []
      = (firstSeen (l.map categoryOf)).map fun c => (c, JSVal.num (categorySum c l)) := by
  obtain ⟨hk, hv⟩ := categoryMap_spec l h
  rw [← hk, List.map_map]
  conv_lhs => rw [← List.map_id (l.foldl categoryStep [])]
  apply List.map_congr_left
  intro p hp
  simp only [id, Function.comp]
  rw [← hv p hp]

/-- The breakdown before sorting: one record per category, in the order of `Object.entries`. -/
theorem categoryData_perm (l : List Transaction)
    (h : ∀ t ∈ l, categoryOf t ∉ objectPrototypeKeys) :
    List.Perm (getCategoryData l)
      ((firstSeen (l.map categoryOf)).map fun c =>
        ({ name := c, value := some ⌊categorySum c l + 1 / 2⌋ } : CategoryDatum)) := by
  unfold getCategoryData
  refine (jsSort_perm _ _).trans ?_
  refine ((entries_perm _).map _).trans ?_
  rw [categoryMap_eq l h, List.map_map]
  exact List.Perm.refl _

theorem categoryData_value (l : List Transaction)
    (h : ∀ t ∈ l, categoryOf t ∉ objectPrototypeKeys) (d : CategoryDatum)
    (hd : d ∈ getCategoryData l) :
    d.name ∈ l.map categoryOf ∧ d.value = some ⌊categorySum d.name l + 1 / 2⌋ := by
  have hm := (categoryData_perm l h).mem_iff.1 hd
  rw [List.mem_map] at hm
  obtain ⟨c, hc, rfl⟩ := hm
  exact ⟨mem_firstSeen.1 hc, rfl⟩

theorem valueGE_iff {a b : CategoryDatum} {x y : Int} (ha : a.value = some x)
    (hb : b.value = some y) : valueGE a b ↔ y ≤ x := by
  unfold valueGE byValueDesc
  rw [ha, hb]
  simp

/-- The breakdown is sorted by value, largest first. -/
theorem categoryData_sorted (l : List Transaction)
    (h : ∀ t ∈ l, categoryOf t ∉ objectPrototypeKeys) :
    (getCategoryData l).Pairwise fun a b =>
      ∃ x y : Int, a.value = some x ∧ b.value = some y ∧ y ≤ x := by
  have hval : ∀ d ∈ (((l.foldl categoryStep []).entries).map fun p =>
      ({ name := p.1, value := Math_round p.2 } : CategoryDatum)), ∃ x : Int, d.value = some x := by
    intro d hd
    have hd' : d ∈ getCategoryData l := (jsSort_perm byValueDesc _).mem_iff.2 hd
    exact ⟨_, (categoryData_value l h d hd').2⟩
  have hs := sorted_insertionSort_of valueGE _
    (fun a ha b hb => by
      obtain ⟨x, hx⟩ := hval a ha
      obtain ⟨y, hy⟩ := hval b hb
      rw [valueGE_iff hx hy, valueGE_iff hy hx]
      exact le_total _ _)
    (fun a ha b hb c hc => by
      obtain ⟨x, hx⟩ := hval a ha
      obtain ⟨y, hy⟩ := hval b hb
      obtain ⟨z, hz⟩ := hval c hc
      rw [valueGE_iff hx hy, valueGE_iff hy hz, valueGE_iff hx hz]
      exact fun h1 h2 => le_trans h2 h1)
  have hs' : (getCategoryData l).Pairwise valueGE := hs
  refine hs'.imp_of_mem ?_
  intro a b ha hb hab
  obtain ⟨-, hx⟩ := categoryData_value l h a ha
  obtain ⟨-, hy⟩ := categoryData_value l h b hb
  exact ⟨_, _, hx, hy, (valueGE_iff hx hy).1 hab⟩

/-- Records of equal value keep the order of `Object.entries`. -/
theorem categoryData_ties (l : List Transaction)
    (h : ∀ t ∈ l, categoryOf t ∉ objectPrototypeKeys) :
    (getCategoryData l).Pairwise fun a b =>
      a.value = b.value → entryOrder (l.map categoryOf) a.name b.name := by
  have hobj : (l.foldl categoryStep []).Pairwise fun p q =>
      (l.map categoryOf).indexOf p.1 < (l.map categoryOf).indexOf q.1 := by
    have := firstSeen_pairwise (l.map categoryOf)
    rw [← (categoryMap_spec l h).1, List.pairwise_map] at this
    exact this
  have hdata : (((l.foldl categoryStep []).entries).map fun p =>
      ({ name := p.1, value := Math_round p.2 } : CategoryDatum)).Pairwise
        fun a b => entryOrder (l.map categoryOf) a.name b.name := by
    rw [List.pairwise_map]
    exact entries_pairwise _ _ hobj
  have hst := pairwise_insertionSort_stable valueGE _ _ hdata
  have hst' : (getCategoryData l).Pairwise fun a b =>
      entryOrder (l.map categoryOf) a.name b.name ∨ ¬ valueGE b a := hst
  refine hst'.imp_of_mem ?_
  intro a b ha hb hab heq
  obtain ⟨-, hx⟩ := categoryData_value l h a ha
  obtain ⟨-, hy⟩ := categoryData_value l h b hb
  rcases hab with hab | hab
  · exact hab
  · exfalso
    apply hab
    rw [valueGE_iff hy hx]
    rw [hx, hy] at heq
    exact le_of_eq (Option.some.inj heq)

theorem valueSum_foldl (data : List CategoryDatum) (acc : Int)
    (h : ∀ d ∈ data, ∃ x : Int, d.value = some x) :
    data.foldl addValue (some acc) = some (acc + (data.map fun d => d.value.getD 0).sum) := by
  induction data generalizing acc with
  | nil => simp
  | cons d data ih =>
    obtain ⟨x, hx⟩ := h d (List.mem_cons_self _ _)
    rw [List.foldl_cons]
    have e : addValue (some acc) d = some (acc + x) := by
      unfold addValue
      rw [hx]
    rw [e, ih _ (fun e he => h e (List.mem_cons_of_mem _ he))]
    simp [hx, add_assoc]

theorem categorySum_cons (c : String) (t : Transaction) (l : List Transaction) :
    categorySum c (t :: l) = (if categoryOf t = c then t.amount else 0) + categorySum c l := by
  unfold categorySum
  by_cases h : categoryOf t = c <;> simp [h, List.filter_cons]

/-- The sums by category add up to the sum of all amounts. -/
theorem sum_categorySum (ks : List String) (hnd : ks.Nodup) (l : List Transaction)
    (hk : ∀ t ∈ l, categoryOf t ∈ ks) :
    (ks.map fun c => categorySum c l).sum = (l.map (·.amount)).sum := by
  induction l with
  | nil => simp [categorySum]
  | cons t l ih =>
    have e : (fun c => categorySum c (t :: l))
        = fun c => (if categoryOf t = c then t.amount else 0) + categorySum c l := by
      funext c
      exact categorySum_cons c t l
    rw [e, List.sum_map_add, ih (fun u hu => hk u (List.mem_cons_of_mem _ hu)), List.map_cons,
      List.sum_cons]
    congr 1
    rw [← List.sum_toFinset _ hnd, Finset.sum_ite_eq]
    simp [hk t (List.mem_cons_self _ _)]

theorem abs_round_sub_le (x : ℚ) : |((⌊x + 1 / 2⌋ : Int) : ℚ) - x| ≤ 1 / 2 := by
  have h1 := Int.floor_le (x + 1 / 2)
  have h2 := Int.lt_floor_add_one (x + 1 / 2)
  rw [abs_le]
  constructor <;> linarith

theorem round_intCast (n : Int) : ⌊((n : ℚ)) + 1 / 2⌋ = n := by
  rw [Int.floor_eq_iff]
  constructor <;> linarith

theorem abs_sum_sub_le (ks : List String) (f g : String → ℚ)
    (h : ∀ c, |f c - g c| ≤ 1 / 2) :
    |(ks.map f).sum - (ks.map g).sum| ≤ (ks.length : ℚ) / 2 := by
  induction ks with
  | nil => simp
  | cons k ks ih =>
    simp only [List.map_cons, List.sum_cons, List.length_cons, Nat.cast_add, Nat.cast_one]
    have e : f k + (ks.map f).sum - (g k + (ks.map g).sum)
        = (f k - g k) + ((ks.map f).sum - (ks.map g).sum) := by ring
    rw [e]
    have := abs_add (f k - g k) ((ks.map f).sum - (ks.map g).sum)
    have := h k
    linarith

theorem categorySum_int (c : String) (l : List Transaction)
    (h : ∀ t ∈ l, ∃ n : Int, t.amount = n) : ∃ m : Int, categorySum c l = m := by
  induction l with
  | nil => exact ⟨0, by simp [categorySum]⟩
  | cons t l ih =>
    obtain ⟨m, hm⟩ := ih (fun u hu => h u (List.mem_cons_of_mem _ hu))
    obtain ⟨n, hn⟩ := h t (List.mem_cons_self _ _)
    rw [categorySum_cons, hm, hn]
    by_cases hc : categoryOf t = c
    · exact ⟨n + m, by simp [hc]⟩
    · exact ⟨m, by simp [hc]⟩

/-- The sum of the values of a breakdown against the sum of the amounts it was built from. -/
theorem valueSum_getCategoryData (l : List Transaction)
    (h : ∀ t ∈ l, categoryOf t ∉ objectPrototypeKeys) :
    ∃ z : Int, valueSum (getCategoryData l) = some z
      ∧ |(z : ℚ) - (l.map (·.amount)).sum| ≤ ((getCategoryData l).length : ℚ) / 2
      ∧ ((∀ t ∈ l, ∃ n : Int, t.amount = n) → (z : ℚ) = (l.map (·.amount)).sum) := by
  have hp := categoryData_perm l h
  have hsum : valueSum (getCategoryData l)
      = some ((firstSeen (l.map categoryOf)).map fun c => ⌊categorySum c l + 1 / 2⌋).sum := by
    unfold valueSum
    rw [valueSum_foldl _ 0 (fun d hd => ⟨_, (categoryData_value l h d hd).2⟩), zero_add,
      (hp.map fun d => d.value.getD 0).sum_eq, List.map_map]
    rfl
  have htot := sum_categorySum (firstSeen (l.map categoryOf)) (firstSeen_nodup _) l
    (fun t ht => mem_firstSeen.2 (List.mem_map_of_mem _ ht))
  have hcast : (((firstSeen (l.map categoryOf)).map
        fun c => ⌊categorySum c l + 1 / 2⌋).sum : ℚ)
      = ((firstSeen (l.map categoryOf)).map
        fun c => ((⌊categorySum c l + 1 / 2⌋ : Int) : ℚ)).sum := by
    rw [Int.cast_list_sum, List.map_map]
    rfl
  have hlen : (getCategoryData l).length = (firstSeen (l.map categoryOf)).length := by
    rw [hp.length_eq, List.length_map]
  refine ⟨_, hsum, ?_, ?_⟩
  · rw [hcast, ← htot, hlen]
    exact abs_sum_sub_le _ _ _ fun c => abs_round_sub_le _
  · intro hint
    rw [hcast, ← htot]
    congr 1
    apply List.map_congr_left
    intro c _
    obtain ⟨m, hm⟩ := categorySum_int c l hint
    rw [hm, round_intCast]

theorem totalExpenses_eq (ts : List Transaction) :
    totalExpenses ts = ((expenses ts).map (·.amount)).sum := by
  unfold totalExpenses
  rw [foldl_add_amount, zero_add]

theorem totalIncome_eq (ts : List Transaction) :
    totalIncome ts = ((income ts).map (·.amount)).sum := by
  unfold totalIncome
  rw [foldl_add_amount, zero_add]

/-- C2, as amended: when no category is the name of a property inherited from
`Object.prototype`, the sum of the rounded totals of the category breakdown of the expenses is
within half a unit per category of the total expense, and it equals the total expense when all
amounts are whole numbers; likewise for the incomes and the total income. -/
theorem categoryData_sum_totals (ts : List Transaction)
    (h : ∀ t ∈ ts, categoryOf t ∉ objectPrototypeKeys) :
    (∃ z : Int, valueSum (expenseData ts) = some z
      ∧ |(z : ℚ) - totalExpenses ts| ≤ ((expenseData ts).length : ℚ) / 2
      ∧ ((∀ t ∈ ts, ∃ n : Int, t.amount = n) → (z : ℚ) = totalExpenses ts))
    ∧ (∃ z : Int, valueSum (incomeData ts) = some z
      ∧ |(z : ℚ) - totalIncome ts| ≤ ((incomeData ts).length : ℚ) / 2
      ∧ ((∀ t ∈ ts, ∃ n : Int, t.amount = n) → (z : ℚ) = totalIncome ts)) := by
  constructor
  · obtain ⟨z, h1, h2, h3⟩ := valueSum_getCategoryData (expenses ts)
      (fun t ht => h t (List.mem_filter.1 ht).1)
    rw [totalExpenses_eq]
    exact ⟨z, h1, h2, fun hi => h3 fun t ht => hi t (List.mem_filter.1 ht).1⟩
  · obtain ⟨z, h1, h2, h3⟩ := valueSum_getCategoryData (income ts)
      (fun t ht => h t (List.mem_filter.1 ht).1)
    rw [totalIncome_eq]
    exact ⟨z, h1, h2, fun hi => h3 fun t ht => hi t (List.mem_filter.1 ht).1⟩

/-- The amended C2 on the example of the specification. -/
theorem categoryData_sum_totals_witness :
    (∀ t ∈ specExample, categoryOf t ∉ objectPrototypeKeys) ∧
    ((∃ z : Int, valueSum (expenseData specExample) = some z
      ∧ |(z : ℚ) - totalExpenses specExample| ≤ ((expenseData specExample).length : ℚ) / 2
      ∧ ((∀ t ∈ specExample, ∃ n : Int, t.amount = n) → (z : ℚ) = totalExpenses specExample))
    ∧ (∃ z : Int, valueSum (incomeData specExample) = some z
      ∧ |(z : ℚ) - totalIncome specExample| ≤ ((incomeData specExample).length : ℚ) / 2
      ∧ ((∀ t ∈ specExample, ∃ n : Int, t.amount = n) → (z : ℚ) = totalIncome specExample))) :=
  ⟨by decide, categoryData_sum_totals specExample (by decide)⟩

/-- Against C2 as stated: for one expense of 1200.40 the breakdown of the expenses sums to 1200,
which is not the total expense. -/
theorem categoryData_sum_counterexample :
    expenseData fractionalExpense = [{ name := "Groceries", value := some 1200 }] ∧
    valueSum (expenseData fractionalExpense) = some 1200 ∧
    totalExpenses fractionalExpense = 6002 / 5 ∧
    ((1200 : Int) : ℚ) ≠ totalExpenses fractionalExpense := by
  decide!

/-- C7: for category names that `Object.prototype` does not define, `getCategoryData` returns
exactly one entry per distinct category of the list (a missing or empty category counting as
`Others`), whose value is the sum of the amounts of that category rounded to the nearest whole
number; the example of the specification gives the single entry `Groceries`, 1500.  For the
category `constructor` the entry has the value `NaN`, and for the category `__proto__` there is
no entry at all. -/
theorem getCategoryData_entries :
    (∀ l : List Transaction, (∀ t ∈ l, categoryOf t ∉ objectPrototypeKeys) →
      ((getCategoryData l).map (·.name)).Nodup
      ∧ (∀ c, c ∈ (getCategoryData l).map (·.name) ↔ c ∈ l.map categoryOf)
      ∧ ∀ d ∈ getCategoryData l,
          d.value = some ⌊((l.filter fun t => categoryOf t == d.name).map (·.amount)).sum
            + 1 / 2⌋) ∧
    getCategoryData (expenses specExample) = [{ name := "Groceries", value := some 1500 }] ∧
    getCategoryData mixedCategories
      = [ { name := "Others", value := some 8 }, { name := "2", value := some 5 },
          { name := "Rent", value := some 5 }, { name := "Food", value := some 5 } ] ∧
    getCategoryData (oneExpense "constructor") = [{ name := "constructor", value := none }] ∧
    getCategoryData (oneExpense "__proto__") = [] := by
  refine ⟨fun l h => ⟨?_, ?_, ?_⟩, by decide!, by decide!, by decide!, by decide!⟩
  · have hp := (categoryData_perm l h).map (·.name)
    rw [List.map_map] at hp
    rw [hp.nodup_iff]
    have e : ((fun d : CategoryDatum => d.name) ∘ fun c =>
        ({ name := c, value := some ⌊categorySum c l + 1 / 2⌋ } : CategoryDatum)) = id := rfl
    rw [e, List.map_id]
    exact firstSeen_nodup _
  · intro c
    have hp := (categoryData_perm l h).map (·.name)
    rw [List.map_map] at hp
    rw [hp.mem_iff]
    have e : ((fun d : CategoryDatum => d.name) ∘ fun c =>
        ({ name := c, value := some ⌊categorySum c l + 1 / 2⌋ } : CategoryDatum)) = id := rfl
    rw [e, List.map_id]
    exact mem_firstSeen
  · intro d hd
    exact (categoryData_value l h d hd).2

/-- C8, as amended: when no category is the name of a property inherited from
`Object.prototype`, the output of `getCategoryData` is sorted by value in non-increasing order,
and two entries of equal value stand in the order of `Object.entries`: categories whose names are
array indices (canonical digit strings) come first, in ascending numeric order, and the other
categories follow in the order in which they were first encountered in the input. -/
theorem getCategoryData_order (l : List Transaction)
    (h : ∀ t ∈ l, categoryOf t ∉ objectPrototypeKeys) :
    ((getCategoryData l).Pairwise fun a b =>
      ∃ x y : Int, a.value = some x ∧ b.value = some y ∧ y ≤ x)
    ∧ (getCategoryData l).Pairwise fun a b =>
      a.value = b.value → entryOrder (l.map categoryOf) a.name b.name :=
  ⟨categoryData_sorted l h, categoryData_ties l h⟩

/-- The amended C8 on a list with a digit-string category and a missing and an empty category. -/
theorem getCategoryData_order_witness :
    (∀ t ∈ mixedCategories, categoryOf t ∉ objectPrototypeKeys) ∧
    (((getCategoryData mixedCategories).Pairwise fun a b =>
      ∃ x y : Int, a.value = some x ∧ b.value = some y ∧ y ≤ x)
    ∧ (getCategoryData mixedCategories).Pairwise fun a b =>
      a.value = b.value → entryOrder (mixedCategories.map categoryOf) a.name b.name) :=
  ⟨by decide, getCategoryData_order mixedCategories (by decide)⟩

/-- Against C8 as stated: equal expenses in the categories `2` and `1`, met in this order, come
out in the order `1`, `2`. -/
theorem getCategoryData_order_counterexample :
    digitCategories.map categoryOf = ["2", "1"] ∧
    getCategoryData digitCategories
      = [{ name := "1", value := some 5 }, { name := "2", value := some 5 }] := by
  decide!

/-! ### The dictionary of `getTrendData` -/

theorem space_mem_trendKey (tz : TimeZone) (monthName : Int → String) (date : JSDate) :
    ' ' ∈ (trendKey tz monthName date).data := by
  unfold trendKey
  simp only [String.data_append]
  apply List.mem_append_left
  apply List.mem_append_right
  decide

theorem not_mem_prototypeKeys_of_space {k : String} (h : ' ' ∈ k.data) :
    k ∉ objectPrototypeKeys := by
  intro hk
  have key : ∀ s ∈ objectPrototypeKeys, ' ' ∉ s.data := by decide
  exact key k hk h

theorem arrayIndex?_of_space {k : String} (h : ' ' ∈ k.data) : arrayIndex? k = none := by
  unfold arrayIndex?
  simp only
  rw [if_neg]
  rintro ⟨-, hall, -⟩
  rw [List.all_eq_true] at hall
  have := hall ' ' h
  revert this
  decide

theorem update_of_lookup_none {β : Type} (obj : JSObject β) (k : String) (v : β)
    (h : obj.lookup k = none) : (obj.map fun p => if p.1 == k then (k, v) else p) = obj := by
  rw [lookup_eq_none_iff_keys] at h
  conv_rhs => rw [← List.map_id obj]
  apply List.map_congr_left
  intro p hp
  have : ¬ p.1 = k := fun e => h (e ▸ List.mem_map_of_mem Prod.fst hp)
  simp [this]

theorem trendStep_eq_groupStep (tz : TimeZone) (monthName : Int → String)
    (obj : JSObject DayBucket) (t : Transaction) :
    trendStep tz monthName obj t
      = groupStep (trendKeyOf tz monthName) (trendInit tz monthName) trendUpd obj t := by
  have hsp := space_mem_trendKey tz monthName t.transaction_date.toDate
  have hk := not_mem_prototypeKeys_of_space hsp
  have hne := ne_proto_of_not_mem hk
  unfold trendStep groupStep trendInit trendKeyOf
  dsimp only
  generalize trendKey tz monthName t.transaction_date.toDate = key at *
  cases hl : obj.lookup key with
  | none =>
    have hg0 : obj.get key = Lookup.undefined := by rw [get_eq _ _ hk, hl]
    have hs0 : ∀ b0 : DayBucket, obj.set key b0 = obj ++ [(key, b0)] := by
      intro b0
      rw [set_eq _ _ _ hne, hl]
    have hl1 : ∀ b0 : DayBucket, (obj ++ [(key, b0)]).lookup key = some b0 := by
      intro b0
      rw [List.lookup_append, hl]
      simp [List.lookup_cons]
    have hg1 : ∀ b0 : DayBucket, (obj ++ [(key, b0)]).get key = Lookup.own b0 := by
      intro b0
      rw [get_eq _ _ hk, hl1]
    have hs1 : ∀ b0 b1 : DayBucket, (obj ++ [(key, b0)]).set key b1 = obj ++ [(key, b1)] := by
      intro b0 b1
      rw [set_eq _ _ _ hne, hl1]
      simp only
      rw [List.map_append, update_of_lookup_none _ _ _ hl]
      simp
    simp only [hg0, hs0, hg1, hs1]
  | some b =>
    have hg0 : obj.get key = Lookup.own b := by rw [get_eq _ _ hk, hl]
    have hs0 : ∀ b1 : DayBucket,
        obj.set key b1 = obj.map fun p => if p.1 == key then (key, b1) else p := by
      intro b1
      rw [set_eq _ _ _ hne, hl]
    simp only [hg0, hs0]
    rfl

theorem foldl_trendStep (tz : TimeZone) (monthName : Int → String) (l : List Transaction) :
    l.foldl (trendStep tz monthName) []
      = l.foldl (groupStep (trendKeyOf tz monthName) (trendInit tz monthName) trendUpd) [] :=
  List.foldl_ext _ _ _ fun obj t _ => trendStep_eq_groupStep tz monthName obj t

theorem trendSum_concat (tz : TimeZone) (monthName : Int → String) (c : String)
    (l : List Transaction) (t : Transaction) :
    trendSum tz monthName c (l ++ [t])
      = trendSum tz monthName c l + if trendKeyOf tz monthName t = c then t.amount else 0 := by
  unfold trendSum
  rw [List.filter_append, List.map_append, List.sum_append]
  by_cases h : trendKeyOf tz monthName t = c <;> simp [h]

theorem find?_concat_key (tz : TimeZone) (monthName : Int → String) (c : String)
    (l : List Transaction) (t : Transaction) :
    (l ++ [t]).find? (fun u => trendKeyOf tz monthName u == c)
      = (l.find? fun u => trendKeyOf tz monthName u == c).or
          (if trendKeyOf tz monthName t = c then some t else none) := by
  rw [List.find?_append]
  by_cases h : trendKeyOf tz monthName t = c <;> simp [h, List.find?_cons]

/-- The bucket accumulated under a label: its amount is the sum of the amounts of the
transactions with that label, its timestamp that of the first of them. -/
theorem groupValue_trend (tz : TimeZone) (monthName : Int → String) (c : String)
    (l : List Transaction) :
    groupValue (trendKeyOf tz monthName) (trendInit tz monthName) trendUpd c l
      = (l.find? fun u => trendKeyOf tz monthName u == c).map fun t0 =>
          ({ date := c, amount := trendSum tz monthName c l,
             timestamp := getTime t0.transaction_date.toDate } : DayBucket) := by
  induction l using List.reverseRecOn with
  | nil => simp [groupValue]
  | append_singleton l t ih =>
    have e : groupValue (trendKeyOf tz monthName) (trendInit tz monthName) trendUpd c (l ++ [t])
        = if trendKeyOf tz monthName t = c then
            some (groupNext (trendInit tz monthName) trendUpd
              (groupValue (trendKeyOf tz monthName) (trendInit tz monthName) trendUpd c l) t)
          else groupValue (trendKeyOf tz monthName) (trendInit tz monthName) trendUpd c l := by
      simp [groupValue, List.foldl_append]
    rw [e, ih, find?_concat_key, trendSum_concat]
    by_cases hc : trendKeyOf tz monthName t = c
    · simp only [hc, if_true]
      cases hf : l.find? (fun u => trendKeyOf tz monthName u == c) with
      | none =>
        have h0 : trendSum tz monthName c l = 0 := by
          unfold trendSum
          rw [List.filter_eq_nil_iff.2]
          · simp
          · intro a ha hca
            exact (List.find?_eq_none.1 hf) a ha hca
        simp [groupNext, trendInit, hc, h0]
      | some t0 =>
        simp [groupNext, trendUpd]
    · simp [hc]

theorem entries_eq_self {β : Type} (obj : JSObject β) (h : ∀ p ∈ obj, arrayIndex? p.1 = none) :
    obj.entries = obj := by
  unfold JSObject.entries
  have h1 : obj.filter (fun p => (arrayIndex? p.1).isSome) = [] := by
    rw [List.filter_eq_nil_iff]
    intro p hp
    rw [h p hp]
    simp
  have h2 : obj.filter (fun p => (arrayIndex? p.1).isNone) = obj := by
    rw [List.filter_eq_self]
    intro p hp
    rw [h p hp]
    rfl
  rw [h1, h2]
  rfl

theorem getTime_toDate (d : DateOnly) : getTime d.toDate = some (d.dayNumber * msPerDay) :=
  d.toDate_eq

/-- The dictionary `dayMap` that `getTrendData` builds from the transactions `fl` of the chosen
type: one bucket per label, in the order of first occurrence; the bucket of a label holds the sum
of the amounts with that label and the timestamp of the first transaction with that label. -/
theorem dayMap_spec (tz : TimeZone) (monthName : Int → String) (fl : List Transaction) :
    (fl.foldl (trendStep tz monthName) []).map Prod.fst
        = firstSeen (fl.map (trendKeyOf tz monthName))
      ∧ ∀ p ∈ fl.foldl (trendStep tz monthName) [],
          ∃ t0, fl.find? (fun t => trendKeyOf tz monthName t == p.1) = some t0
            ∧ p.2 = { date := p.1, amount := trendSum tz monthName p.1 fl,
                      timestamp := some (t0.transaction_date.dayNumber * msPerDay) } := by
  rw [foldl_trendStep]
  have hk := foldl_groupStep_keys (trendKeyOf tz monthName) (trendInit tz monthName) trendUpd fl
  refine ⟨hk, ?_⟩
  intro p hp
  have hnd : ((fl.foldl (groupStep (trendKeyOf tz monthName) (trendInit tz monthName)
      trendUpd) []).map Prod.fst).Nodup := by
    rw [hk]
    exact firstSeen_nodup _
  have h1 := lookup_of_mem hnd hp
  rw [foldl_groupStep_lookup, groupValue_trend] at h1
  cases hf : fl.find? (fun t => trendKeyOf tz monthName t == p.1) with
  | none => simp [hf] at h1
  | some t0 =>
    rw [hf, Option.map_some', getTime_toDate] at h1
    exact ⟨t0, rfl, (Option.some.inj h1).symm⟩

theorem dayMap_entries (tz : TimeZone) (monthName : Int → String) (fl : List Transaction) :
    (fl.foldl (trendStep tz monthName) []).entries = fl.foldl (trendStep tz monthName) [] := by
  apply entries_eq_self
  intro p hp
  have hm : p.1 ∈ (fl.foldl (trendStep tz monthName) []).map Prod.fst :=
    List.mem_map_of_mem Prod.fst hp
  rw [(dayMap_spec tz monthName fl).1, mem_firstSeen, List.mem_map] at hm
  obtain ⟨t, -, ht⟩ := hm
  rw [← ht]
  exact arrayIndex?_of_space (space_mem_trendKey _ _ _)

theorem trendBuckets_perm (tz : TimeZone) (monthName : Int → String) (ts : List Transaction)
    (type : String) :
    List.Perm (trendBuckets tz monthName ts type)
      (((ts.filter fun t => t.type == type).foldl (trendStep tz monthName) []).map
        fun p => p.2) := by
  unfold trendBuckets
  simp only
  rw [dayMap_entries]
  exact jsSort_perm _ _

/-- Every bucket carries its label, the sum of the amounts with that label and the timestamp of
the first transaction with that label. -/
theorem trendBuckets_mem (tz : TimeZone) (monthName : Int → String) (ts : List Transaction)
    (type : String) (b : DayBucket) (hb : b ∈ trendBuckets tz monthName ts type) :
    ∃ t0, (ts.filter fun t => t.type == type).find?
          (fun t => trendKeyOf tz monthName t == b.date) = some t0
      ∧ b.amount = trendSum tz monthName b.date (ts.filter fun t => t.type == type)
      ∧ b.timestamp = some (t0.transaction_date.dayNumber * msPerDay) := by
  rw [(trendBuckets_perm tz monthName ts type).mem_iff, List.mem_map] at hb
  obtain ⟨p, hp, rfl⟩ := hb
  obtain ⟨t0, h0, h1⟩ := (dayMap_spec tz monthName _).2 p hp
  rw [h1]
  exact ⟨t0, h0, rfl, rfl⟩

theorem trendBuckets_dates (tz : TimeZone) (monthName : Int → String) (ts : List Transaction)
    (type : String) :
    List.Perm ((trendBuckets tz monthName ts type).map (·.date))
      (firstSeen ((ts.filter fun t => t.type == type).map (trendKeyOf tz monthName))) := by
  refine ((trendBuckets_perm tz monthName ts type).map _).trans ?_
  rw [List.map_map, ← (dayMap_spec tz monthName _).1]
  apply List.Perm.of_eq
  apply List.map_congr_left
  intro p hp
  obtain ⟨t0, -, h1⟩ := (dayMap_spec tz monthName _).2 p hp
  simp only [Function.comp]
  rw [h1]

theorem timestampLE_iff {a b : DayBucket} {x y : Int} (ha : a.timestamp = some x)
    (hb : b.timestamp = some y) : timestampLE a b ↔ x ≤ y := by
  unfold timestampLE byTimestamp
  rw [ha, hb]
  simp

/-- The buckets are sorted by timestamp, earliest first. -/
theorem trendBuckets_sorted (tz : TimeZone) (monthName : Int → String) (ts : List Transaction)
    (type : String) :
    (trendBuckets tz monthName ts type).Pairwise fun a b =>
      ∃ x y : Int, a.timestamp = some x ∧ b.timestamp = some y ∧ x ≤ y := by
  have hval : ∀ b ∈ trendBuckets tz monthName ts type, ∃ x : Int, b.timestamp = some x := by
    intro b hb
    obtain ⟨t0, -, -, h⟩ := trendBuckets_mem tz monthName ts type b hb
    exact ⟨_, h⟩
  have hval' : ∀ b ∈ (((ts.filter fun t => t.type == type).foldl (trendStep tz monthName)
      []).entries.map fun p => p.2), ∃ x : Int, b.timestamp = some x := by
    intro b hb
    exact hval b ((jsSort_perm byTimestamp _).mem_iff.2 hb)
  have hs := sorted_insertionSort_of timestampLE _
    (fun a ha b hb => by
      obtain ⟨x, hx⟩ := hval' a ha
      obtain ⟨y, hy⟩ := hval' b hb
      rw [timestampLE_iff hx hy, timestampLE_iff hy hx]
      exact le_total _ _)
    (fun a ha b hb c hc => by
      obtain ⟨x, hx⟩ := hval' a ha
      obtain ⟨y, hy⟩ := hval' b hb
      obtain ⟨z, hz⟩ := hval' c hc
      rw [timestampLE_iff hx hy, timestampLE_iff hy hz, timestampLE_iff hx hz]
      exact fun h1 h2 => le_trans h1 h2)
  have hs' : (trendBuckets tz monthName ts type).Pairwise timestampLE := hs
  refine hs'.imp_of_mem ?_
  intro a b ha hb hab
  obtain ⟨x, hx⟩ := hval a ha
  obtain ⟨y, hy⟩ := hval b hb
  exact ⟨x, y, hx, hy, (timestampLE_iff hx hy).1 hab⟩

theorem length_sliceLast_le {α : Type} (n : Nat) (l : List α) : (sliceLast n l).length ≤ n := by
  unfold sliceLast
  rw [List.length_drop]
  omega

theorem length_sliceLast {α : Type} (n : Nat) (l : List α) :
    (sliceLast n l).length = min n l.length := by
  unfold sliceLast
  rw [List.length_drop]
  omega

theorem take_append_sliceLast {α : Type} (n : Nat) (l : List α) :
    l.take (l.length - n) ++ sliceLast n l = l :=
  List.take_append_drop _ _

/-- C9: for every transaction list and every type, the output of `getTrendData` has at most 15
entries; it is the list of the kept buckets without their timestamps, and the kept buckets are in
non-decreasing order of their timestamps. -/
theorem getTrendData_length_sorted (tz : TimeZone) (monthName : Int → String)
    (ts : List Transaction) (type : String) :
    (getTrendData tz monthName ts type).length ≤ 15
    ∧ getTrendData tz monthName ts type
        = (getTrendBuckets tz monthName ts type).map
            (fun b => { date := b.date, amount := b.amount })
    ∧ (getTrendBuckets tz monthName ts type).Pairwise fun a b =>
        ∃ x y : Int, a.timestamp = some x ∧ b.timestamp = some y ∧ x ≤ y := by
  refine ⟨?_, rfl, ?_⟩
  · unfold getTrendData getTrendBuckets
    rw [List.length_map]
    exact length_sliceLast_le _ _
  · unfold getTrendBuckets sliceLast
    exact (trendBuckets_sorted tz monthName ts type).sublist (List.drop_sublist _ _)

/-- C10, as amended: `getTrendData` buckets the transactions of the chosen type by their label,
the day of the month and the month of the date without the year, so that the same day and month
of different years share one bucket.  There is exactly one bucket per label; its amount is the
sum of the amounts of the transactions with that label and its timestamp is that of the first of
them in list order.  The output is the last 15 buckets (all of them when there are fewer) in
ascending order of timestamp: no dropped bucket has a later timestamp than a kept one. -/
theorem getTrendData_buckets (tz : TimeZone) (monthName : Int → String) (ts : List Transaction)
    (type : String) :
    ((trendBuckets tz monthName ts type).map (·.date)).Nodup
    ∧ (∀ k, k ∈ (trendBuckets tz monthName ts type).map (·.date)
        ↔ ∃ t ∈ ts, t.type = type ∧ trendKeyOf tz monthName t = k)
    ∧ (∀ b ∈ trendBuckets tz monthName ts type,
        b.amount = (((ts.filter fun t => t.type == type).filter
            fun t => trendKeyOf tz monthName t == b.date).map (·.amount)).sum
        ∧ ∃ t0, ((ts.filter fun t => t.type == type).find?
              fun t => trendKeyOf tz monthName t == b.date) = some t0
            ∧ b.timestamp = some (t0.transaction_date.dayNumber * msPerDay))
    ∧ (∃ dropped, trendBuckets tz monthName ts type
          = dropped ++ getTrendBuckets tz monthName ts type
        ∧ (getTrendBuckets tz monthName ts type).length
          = min 15 (trendBuckets tz monthName ts type).length
        ∧ ∀ d ∈ dropped, ∀ k ∈ getTrendBuckets tz monthName ts type,
            ∃ x y : Int, d.timestamp = some x ∧ k.timestamp = some y ∧ x ≤ y)
    ∧ getTrendData tz monthName ts type
        = (getTrendBuckets tz monthName ts type).map
            (fun b => { date := b.date, amount := b.amount }) := by
  refine ⟨?_, ?_, ?_, ?_, rfl⟩
  · rw [(trendBuckets_dates tz monthName ts type).nodup_iff]
    exact firstSeen_nodup _
  · intro k
    rw [(trendBuckets_dates tz monthName ts type).mem_iff, mem_firstSeen, List.mem_map]
    constructor
    · rintro ⟨t, ht, rfl⟩
      rw [List.mem_filter] at ht
      exact ⟨t, ht.1, beq_iff_eq.1 ht.2, rfl⟩
    · rintro ⟨t, ht, hty, rfl⟩
      exact ⟨t, List.mem_filter.2 ⟨ht, beq_iff_eq.2 hty⟩, rfl⟩
  · intro b hb
    obtain ⟨t0, h0, h1, h2⟩ := trendBuckets_mem tz monthName ts type b hb
    exact ⟨h1, t0, h0, h2⟩
  · refine ⟨(trendBuckets tz monthName ts type).take
      ((trendBuckets tz monthName ts type).length - 15), ?_, ?_, ?_⟩
    · exact (take_append_sliceLast 15 _).symm
    · exact length_sliceLast 15 _
    · have hs := trendBuckets_sorted tz monthName ts type
      rw [← take_append_sliceLast 15 (trendBuckets tz monthName ts type),
        List.pairwise_append] at hs
      exact hs.2.2

/-- Against C10 as stated: expenses on 2024-01-05 and on 2023-01-05, two calendar days, end up in
the single bucket `5 Jan` with the sum of their amounts. -/
theorem getTrendData_buckets_counterexample :
    ((sameDayTwoYears.map (·.transaction_date.toISO)) = ["2024-01-05", "2023-01-05"]) ∧
    getTrendData (fixedZone 0) enINShortMonth sameDayTwoYears "expense"
      = [{ date := "5 Jan", amount := 300 }] := by
  decide!

/-! ### Nested period filters -/

/-- One month back: the day number moves back by the length of the previous month. -/
theorem MakeDay_month_back (t : Int) :
    ∃ k : Int, 28 ≤ k ∧ k ≤ 31
      ∧ MakeDay (YearFromTime t) (MonthFromTime t - 1) (DateFromTime t) = Day t - k := by
  have h := MakeDay_of_time t (DateFromTime t)
  obtain ⟨hm0, hm1⟩ := MonthFromTime_range t
  generalize MonthFromTime t = M at *
  generalize DateFromTime t = D at *
  generalize YearFromTime t = Y at *
  generalize Day t = d at *
  have hl := leapOf_cases Y
  have hl' := leapOf_cases (Y - 1)
  have hy := DayFromYear_succ (Y - 1)
  rw [sub_add_cancel, DaysInYear_eq] at hy
  unfold MakeDay at h ⊢
  interval_cases M
  · refine ⟨31, by norm_num, by norm_num, ?_⟩
    norm_num [monthStart] at h ⊢
    have e : Y + -1 = Y - 1 := by ring
    rw [e]
    omega
  all_goals
    norm_num [monthStart] at h ⊢
    first
      | exact ⟨31, by norm_num, by norm_num, by omega⟩
      | exact ⟨30, by norm_num, by norm_num, by omega⟩
      | exact ⟨28 + leapOf Y, by omega, by omega, by omega⟩

/-- One year back: the day number moves back by 365 or 366 days. -/
theorem MakeDay_year_back (t : Int) :
    ∃ j : Int, 365 ≤ j ∧ j ≤ 366
      ∧ MakeDay (YearFromTime t - 1) (MonthFromTime t) (DateFromTime t) = Day t - j := by
  have h := MakeDay_of_time t (DateFromTime t)
  obtain ⟨hm0, hm1⟩ := MonthFromTime_range t
  generalize MonthFromTime t = M at *
  generalize DateFromTime t = D at *
  generalize YearFromTime t = Y at *
  generalize Day t = d at *
  have hl := leapOf_cases Y
  have hl' := leapOf_cases (Y - 1)
  have hy := DayFromYear_succ (Y - 1)
  rw [sub_add_cancel, DaysInYear_eq] at hy
  have hq : M / 12 = 0 := by omega
  have hr : M % 12 = M := by omega
  unfold MakeDay at h ⊢
  simp only [hq, hr, add_zero] at h ⊢
  by_cases h2 : M < 2
  · refine ⟨365 + leapOf (Y - 1), by omega, by omega, ?_⟩
    have e : ∀ l : Int, monthStart M l = monthStart M 0 := by
      intro l
      interval_cases M <;> simp [monthStart]
    rw [e] at h ⊢
    omega
  · refine ⟨365 + leapOf Y, by omega, by omega, ?_⟩
    have e : ∀ l : Int, monthStart M l = monthStart M 0 + l := by
      intro l
      interval_cases M <;> simp [monthStart]
    rw [e] at h ⊢
    omega

theorem monthAgo_eq (tz : TimeZone) (now : Int) :
    ∃ k : Int, 28 ≤ k ∧ k ≤ 31
      ∧ setMonth tz (some now) ((getMonth tz (some now)).map (· - 1))
        = TimeClip (UTC tz (LocalTime tz now - k * msPerDay)) := by
  obtain ⟨k, h1, h2, h3⟩ := MakeDay_month_back (LocalTime tz now)
  refine ⟨k, h1, h2, ?_⟩
  simp only [getMonth, Option.map_some', setMonth]
  rw [h3, MakeDate_Day_TimeWithinDay]

theorem yearAgo_eq (tz : TimeZone) (now : Int) :
    ∃ j : Int, 365 ≤ j ∧ j ≤ 366
      ∧ setFullYear tz (some now) ((getFullYear tz (some now)).map (· - 1))
        = TimeClip (UTC tz (LocalTime tz now - j * msPerDay)) := by
  obtain ⟨j, h1, h2, h3⟩ := MakeDay_year_back (LocalTime tz now)
  refine ⟨j, h1, h2, ?_⟩
  simp only [getFullYear, Option.map_some', setFullYear]
  rw [h3, MakeDate_Day_TimeWithinDay]

/-- A cutoff `days` days back on the local clock lies within `shift` of that many times 24 hours
before `now`, when the offset assigned to that local time is within `shift` of the offset at
`now`. -/
theorem cutoff_bounds (tz : TimeZone) (now days shift : Int)
    (h : -shift ≤ tz.LocalTZA now true - tz.LocalTZA (LocalTime tz now - days * msPerDay) false
      ∧ tz.LocalTZA now true - tz.LocalTZA (LocalTime tz now - days * msPerDay) false ≤ shift) :
    now - days * msPerDay - shift ≤ UTC tz (LocalTime tz now - days * msPerDay)
      ∧ UTC tz (LocalTime tz now - days * msPerDay) ≤ now - days * msPerDay + shift := by
  unfold UTC
  generalize tz.LocalTZA (LocalTime tz now - days * msPerDay) false = o at *
  unfold LocalTime
  generalize tz.LocalTZA now true = o0 at *
  constructor <;> linarith [h.1, h.2]

theorem filter_sublist_filter {α : Type} (p q : α → Bool) (l : List α)
    (h : ∀ a ∈ l, p a = true → q a = true) : (l.filter p).Sublist (l.filter q) := by
  have e : l.filter p = (l.filter q).filter p := by
    rw [List.filter_filter]
    apply List.filter_congr
    intro a ha
    by_cases hp : p a = true
    · simp [hp, h a ha hp]
    · simp [hp]
  rw [e]
  exact List.filter_sublist _

/-- C15: for every transaction list, every time zone and every current instant `now`, the
period filters are nested: the result of `daily` is a sublist of the result of `weekly`, which is
a sublist of the result of `monthly`, which is a sublist of the result of `yearly`, which is a
sublist of the result of `all`, the input itself.  No assumption is made on the calendar date of
`now`.  The zone may change its offset: `hshift` bounds by `shift`, at most a day, the difference
between the offset at `now` and the offset assigned to a local time of the 366 days before
`now` (`shift` is zero for a zone of constant offset and an hour for a zone with daylight
saving); `hlo` and `hhi` say that `now` is a valid time value at least 366 days and `shift`
after the earliest representable date. -/
theorem filterTransactions_nested (tz : TimeZone) (now : Int) (ts : List Transaction)
    (shift : Int)
    (hshift : ∀ t, LocalTime tz now - 366 * msPerDay ≤ t → t ≤ LocalTime tz now →
      -shift ≤ tz.LocalTZA now true - tz.LocalTZA t false
        ∧ tz.LocalTZA now true - tz.LocalTZA t false ≤ shift)
    (hday : shift ≤ msPerDay)
    (hlo : -8640000000000000 ≤ now - 366 * msPerDay - shift) (hhi : now ≤ 8640000000000000) :
    (filterTransactions tz now ts "daily").Sublist (filterTransactions tz now ts "weekly")
    ∧ (filterTransactions tz now ts "weekly").Sublist (filterTransactions tz now ts "monthly")
    ∧ (filterTransactions tz now ts "monthly").Sublist (filterTransactions tz now ts "yearly")
    ∧ (filterTransactions tz now ts "yearly").Sublist (filterTransactions tz now ts "all")
    ∧ filterTransactions tz now ts "all" = ts := by
  obtain ⟨k, hk1, hk2, hk⟩ := monthAgo_eq tz now
  obtain ⟨j, hj1, hj2, hj⟩ := yearAgo_eq tz now
  have hw := weekAgo_eq tz now
  have hall : filterTransactions tz now ts "all" = ts := by
    unfold filterTransactions
    split <;> first | rfl | (exfalso; revert ‹_ = _›; decide)
  have bw := cutoff_bounds tz now 7 shift
    (hshift _ (by unfold msPerDay; omega) (by unfold msPerDay; omega))
  have bm := cutoff_bounds tz now k shift
    (hshift _ (by unfold msPerDay; omega) (by unfold msPerDay; omega))
  have bj := cutoff_bounds tz now j shift
    (hshift _ (by unfold msPerDay; omega) (by unfold msPerDay; omega))
  rw [hall]
  simp only [filterTransactions]
  rw [hk, hj, hw]
  generalize UTC tz (LocalTime tz now - 7 * msPerDay) = cw at *
  generalize UTC tz (LocalTime tz now - k * msPerDay) = cm at *
  generalize UTC tz (LocalTime tz now - j * msPerDay) = cj at *
  unfold msPerDay at hlo hday bw bm bj
  refine ⟨?_, ?_, ?_, List.filter_sublist _, trivial⟩
  · apply filter_sublist_filter
    intro t _ ht
    rw [beq_iff_eq, toISO_eq_toISODate_iff, civil_eq_iff_Day_eq] at ht
    rw [dateGE_toDate_TimeClip, decide_eq_true_iff, ← ht]
    unfold Day msPerDay
    constructor <;> omega
  · apply filter_sublist_filter
    intro t _ ht
    rw [dateGE_toDate_TimeClip, decide_eq_true_iff] at ht ⊢
    generalize t.transaction_date.dayNumber = dn at *
    unfold msPerDay at *
    constructor <;> omega
  · apply filter_sublist_filter
    intro t _ ht
    rw [dateGE_toDate_TimeClip, decide_eq_true_iff] at ht ⊢
    generalize t.transaction_date.dayNumber = dn at *
    unfold msPerDay at *
    constructor <;> omega

/-- C15 at 2024-03-31 23:30 UTC, the day of the change to summer time, in a zone whose offset
moves by an hour that day, and at noon UTC of 2024-02-29 in a zone of constant offset, five and a
half hours ahead of UTC, where `shift` is zero; both on the example of the specification. -/
theorem filterTransactions_nested_witness :
    (∀ t, LocalTime summerTime2024 1711927800000 - 366 * msPerDay ≤ t →
      t ≤ LocalTime summerTime2024 1711927800000 →
      -3600000 ≤ summerTime2024.LocalTZA 1711927800000 true - summerTime2024.LocalTZA t false
        ∧ summerTime2024.LocalTZA 1711927800000 true - summerTime2024.LocalTZA t false
            ≤ 3600000) ∧
    (3600000 : Int) ≤ msPerDay ∧
    (-8640000000000000 : Int) ≤ 1711927800000 - 366 * msPerDay - 3600000 ∧
    (1711927800000 : Int) ≤ 8640000000000000 ∧
    ((filterTransactions summerTime2024 1711927800000 specExample "daily").Sublist
        (filterTransactions summerTime2024 1711927800000 specExample "weekly")
    ∧ (filterTransactions summerTime2024 1711927800000 specExample "weekly").Sublist
        (filterTransactions summerTime2024 1711927800000 specExample "monthly")
    ∧ (filterTransactions summerTime2024 1711927800000 specExample "monthly").Sublist
        (filterTransactions summerTime2024 1711927800000 specExample "yearly")
    ∧ (filterTransactions summerTime2024 1711927800000 specExample "yearly").Sublist
        (filterTransactions summerTime2024 1711927800000 specExample "all")
    ∧ filterTransactions summerTime2024 1711927800000 specExample "all" = specExample) ∧
    (-8640000000000000 : Int) ≤ 1709208000000 - 366 * msPerDay - 0 ∧
    (1709208000000 : Int) ≤ 8640000000000000 ∧
    ((filterTransactions (fixedZone 19800000) 1709208000000 specExample "daily").Sublist
        (filterTransactions (fixedZone 19800000) 1709208000000 specExample "weekly")
    ∧ (filterTransactions (fixedZone 19800000) 1709208000000 specExample "weekly").Sublist
        (filterTransactions (fixedZone 19800000) 1709208000000 specExample "monthly")
    ∧ (filterTransactions (fixedZone 19800000) 1709208000000 specExample "monthly").Sublist
        (filterTransactions (fixedZone 19800000) 1709208000000 specExample "yearly")
    ∧ (filterTransactions (fixedZone 19800000) 1709208000000 specExample "yearly").Sublist
        (filterTransactions (fixedZone 19800000) 1709208000000 specExample "all")
    ∧ filterTransactions (fixedZone 19800000) 1709208000000 specExample "all" = specExample) :=
  ⟨fun t _ _ => by simp [summerTime2024]; split <;> simp,
    by decide, by decide, by decide,
    filterTransactions_nested summerTime2024 1711927800000 specExample 3600000
      (fun t _ _ => by simp [summerTime2024]; split <;> simp)
      (by decide) (by decide) (by decide),
    by decide, by decide,
    filterTransactions_nested (fixedZone 19800000) 1709208000000 specExample 0
      (fun t _ _ => by simp [fixedZone]) (by decide) (by decide) (by decide)⟩

/-! ### Loading and deleting -/

section sortfilter
variable {α : Type} (r : α → α → Prop) [DecidableRel r]

theorem orderedInsert_of_forall (a : α) (L : List α) (h : ∀ x ∈ L, r a x) :
    L.orderedInsert r a = a :: L := by
  cases L with
  | nil => rfl
  | cons b L =>
    rw [List.orderedInsert, if_pos (h b (List.mem_cons_self _ _))]

/-- Filtering commutes with insertion into a sorted list. -/
theorem filter_orderedInsert (p : α → Bool) (a : α) (L : List α)
    (htr : ∀ x y z, r x y → r y z → r x z) (hL : L.Pairwise r) :
    (L.orderedInsert r a).filter p
      = if p a then (L.filter p).orderedInsert r a else L.filter p := by
  induction L with
  | nil =>
    by_cases hp : p a = true <;> simp [hp]
  | cons b L ih =>
    rw [List.pairwise_cons] at hL
    rw [List.orderedInsert]
    by_cases hab : r a b
    · rw [if_pos hab]
      by_cases hp : p a = true
      · rw [if_pos hp, List.filter_cons_of_pos hp]
        symm
        apply orderedInsert_of_forall
        intro x hx
        rw [List.mem_filter] at hx
        rcases List.mem_cons.1 hx.1 with rfl | hx'
        · exact hab
        · exact htr _ _ _ hab (hL.1 x hx')
      · rw [if_neg hp, List.filter_cons_of_neg hp]
    · rw [if_neg hab]
      by_cases hpb : p b = true
      · rw [List.filter_cons_of_pos hpb, List.filter_cons_of_pos hpb, ih hL.2]
        by_cases hp : p a = true
        · rw [if_pos hp, if_pos hp, List.orderedInsert, if_neg hab]
        · rw [if_neg hp, if_neg hp]
      · rw [List.filter_cons_of_neg hpb, List.filter_cons_of_neg hpb, ih hL.2]

/-- Filtering commutes with a stable sort by a total and transitive order. -/
theorem filter_insertionSort (p : α → Bool) (l : List α)
    (htot : ∀ x y, r x y ∨ r y x) (htr : ∀ x y z, r x y → r y z → r x z) :
    (l.filter p).insertionSort r = (l.insertionSort r).filter p := by
  induction l with
  | nil => rfl
  | cons a l ih =>
    have hs : (l.insertionSort r).Pairwise r :=
      sorted_insertionSort_of r l (fun x _ y _ => htot x y) (fun x _ y _ z _ => htr x y z)
    rw [List.insertionSort, filter_orderedInsert r p a _ htr hs]
    by_cases hp : p a = true
    · rw [if_pos hp, List.filter_cons_of_pos hp, List.insertionSort, ih]
    · rw [if_neg hp, List.filter_cons_of_neg hp, ih]

end sortfilter

theorem dateDesc_total (x y : Transaction) : dateDesc x y ∨ dateDesc y x := by
  unfold dateDesc
  omega

theorem dateDesc_trans (x y z : Transaction) (h1 : dateDesc x y) (h2 : dateDesc y z) :
    dateDesc x z := by
  unfold dateDesc at *
  omega

/-- The owner's list after a delete scoped by `id` and owner is the owner's list before it
without the rows of that `id`. -/
theorem select_delete (rows : Store) (id : Nat) (userId : String) :
    (rows.delete [Filter.idEq id, Filter.userIdEq userId]).select [Filter.userIdEq userId]
      = (rows.select [Filter.userIdEq userId]).filter fun row => row.id != id := by
  unfold Store.select Store.delete
  rw [← filter_insertionSort dateDesc _ _ dateDesc_total dateDesc_trans, List.filter_filter,
    List.filter_filter]
  congr 1
  apply List.filter_congr
  intro row _
  simp only [matchesAll, List.all_cons, List.all_nil, Filter.holds, Bool.and_true, bne]
  generalize (row.id == id) = b1
  generalize (row.user_id == userId) = b2
  cases b1 <;> cases b2 <;> rfl

theorem mem_select {rows : Store} {filters : List Filter} {row : Transaction} :
    row ∈ rows.select filters ↔ row ∈ rows ∧ matchesAll filters row = true := by
  unfold Store.select
  rw [List.mem_insertionSort, List.mem_filter]

theorem select_ids_nodup (rows : Store) (filters : List Filter)
    (hid : (rows.map (·.id)).Nodup) : ((rows.select filters).map (·.id)).Nodup := by
  unfold Store.select
  have hp : List.Perm (((rows.filter (matchesAll filters)).insertionSort dateDesc).map (·.id))
      ((rows.filter (matchesAll filters)).map (·.id)) :=
    (List.perm_insertionSort _ _).map _
  rw [hp.nodup_iff]
  exact hid.sublist ((List.filter_sublist _).map _)

/-- In a list with distinct identifiers, dropping the identifier of a member erases that
member. -/
theorem filter_id_ne_eq_erase (l : List Transaction) (hid : (l.map (·.id)).Nodup)
    (r : Transaction) (hr : r ∈ l) : (l.filter fun row => row.id != r.id) = l.erase r := by
  induction l with
  | nil => simp at hr
  | cons a l ih =>
    rw [List.map_cons, List.nodup_cons] at hid
    by_cases har : a = r
    · subst har
      rw [List.erase_cons_head, List.filter_cons_of_neg (by simp)]
      rw [List.filter_eq_self]
      intro b hb
      have : b.id ≠ a.id := fun e => hid.1 (e ▸ List.mem_map_of_mem (·.id) hb)
      simpa using this
    · have hr' : r ∈ l := (List.mem_cons.1 hr).resolve_left (fun e => har e.symm)
      have hne : a.id ≠ r.id := fun e => hid.1 (e ▸ List.mem_map_of_mem (·.id) hr')
      rw [List.filter_cons_of_pos (by simpa using hne), List.erase_cons_tail (by simpa using har),
        ih hid.2 hr']

theorem sum_filter_erase (p : Transaction → Bool) (l : List Transaction) (r : Transaction)
    (hr : r ∈ l) :
    ((l.filter p).map (·.amount)).sum
      = (((l.erase r).filter p).map (·.amount)).sum + if p r then r.amount else 0 := by
  have hp := (List.perm_cons_erase hr).filter p
  rw [((hp.map (·.amount)).sum_eq)]
  by_cases h : p r = true
  · rw [List.filter_cons_of_pos h, if_pos h, List.map_cons, List.sum_cons, add_comm]
  · rw [List.filter_cons_of_neg h, if_neg h, add_zero]

theorem filterTransactions_filter (tz : TimeZone) (now : Int) (ts : List Transaction) (period : String)
    (p : Transaction → Bool) :
    filterTransactions tz now (ts.filter p) period
      = (filterTransactions tz now ts period).filter p := by
  unfold filterTransactions
  split <;> simp only [List.filter_filter] <;> first
    | rfl
    | (apply List.filter_congr; intro x _; exact Bool.and_comm _ _)

theorem filterTransactions_sublist (tz : TimeZone) (now : Int) (ts : List Transaction) (period : String) :
    (filterTransactions tz now ts period).Sublist ts := by
  unfold filterTransactions
  split <;> first | exact List.filter_sublist _ | exact List.Sublist.refl _

theorem loadedList_eq (st : AppState) (rows : Store) :
    loadedList st rows = rows.select [Filter.userIdEq st.userId] := rfl

theorem listAfterDelete_eq (st : AppState) (rows : Store) (id : Nat) :
    listAfterDelete st rows id
      = (rows.delete [Filter.idEq id, Filter.userIdEq st.userId]).select
          [Filter.userIdEq st.userId] := rfl

theorem BalanceCard_erase (l : List Transaction) (r : Transaction) (hr : r ∈ l) :
    (BalanceCard (l.erase r)).totalIncome
        = (BalanceCard l).totalIncome - (if r.type = "income" then r.amount else 0)
    ∧ (BalanceCard (l.erase r)).totalExpense
        = (BalanceCard l).totalExpense - (if r.type = "expense" then r.amount else 0)
    ∧ (BalanceCard (l.erase r)).balance
        = (BalanceCard l).balance - (if r.type = "income" then r.amount else 0)
          + (if r.type = "expense" then r.amount else 0) := by
  have hi := sum_filter_erase (fun t => t.type == "income") l r hr
  have he := sum_filter_erase (fun t => t.type == "expense") l r hr
  simp only [beq_iff_eq] at hi he
  simp only [BalanceCard, foldl_add_amount, zero_add]
  refine ⟨?_, ?_, ?_⟩ <;> linarith

/-- C11: after a confirmed delete that succeeds, followed by a successful reload, the store has
lost exactly the rows with that `id` owned by the current owner, and the list that `App` holds is
the owner's previous list without the record of that `id`, all other records as they were.  With
unique identifiers exactly one record is removed, and the income, expense and balance that
`BalanceCard` derives from the list (under any period filter that showed the record, at the same
instant) change by exactly the amount of that record in the total of its type. -/
theorem handleDelete_removes_record (st : AppState) (rows : Store) (id : Nat)
    (hid : (rows.map (·.id)).Nodup) :
    (handleDelete st rows id true none none).rows
        = rows.filter (fun row => !(row.id == id && row.user_id == st.userId))
    ∧ listAfterDelete st rows id = (loadedList st rows).filter (fun row => row.id != id)
    ∧ (∀ r ∈ loadedList st rows, r.id = id →
        listAfterDelete st rows id = (loadedList st rows).erase r)
    ∧ (∀ (tz : TimeZone) (now : Int) (period : String) (r : Transaction),
        r ∈ filterTransactions tz now (loadedList st rows) period → r.id = id →
        (BalanceCard (filterTransactions tz now (listAfterDelete st rows id) period)).totalIncome
            = (BalanceCard (filterTransactions tz now (loadedList st rows) period)).totalIncome
              - (if r.type = "income" then r.amount else 0)
        ∧ (BalanceCard (filterTransactions tz now (listAfterDelete st rows id) period)).totalExpense
            = (BalanceCard (filterTransactions tz now (loadedList st rows) period)).totalExpense
              - (if r.type = "expense" then r.amount else 0)
        ∧ (BalanceCard (filterTransactions tz now (listAfterDelete st rows id) period)).balance
            = (BalanceCard (filterTransactions tz now (loadedList st rows) period)).balance
              - (if r.type = "income" then r.amount else 0)
              + (if r.type = "expense" then r.amount else 0)) := by
  have hlist : listAfterDelete st rows id
      = (loadedList st rows).filter (fun row => row.id != id) := by
    rw [listAfterDelete_eq, loadedList_eq, select_delete]
  have hnd : ((loadedList st rows).map (·.id)).Nodup := by
    rw [loadedList_eq]
    exact select_ids_nodup rows _ hid
  refine ⟨?_, hlist, ?_, ?_⟩
  · show rows.delete [Filter.idEq id, Filter.userIdEq st.userId] = _
    unfold Store.delete
    apply List.filter_congr
    intro row _
    simp only [matchesAll, List.all_cons, List.all_nil, Filter.holds, Bool.and_true]
  · intro r hr hrid
    rw [hlist, ← hrid]
    exact filter_id_ne_eq_erase _ hnd r hr
  · intro tz now period r hr hrid
    have hsub := filterTransactions_sublist tz now (loadedList st rows) period
    have hnd' : ((filterTransactions tz now (loadedList st rows) period).map (·.id)).Nodup :=
      hnd.sublist (hsub.map _)
    rw [hlist, filterTransactions_filter, ← hrid, filter_id_ne_eq_erase _ hnd' r hr]
    exact BalanceCard_erase _ r hr

/-- C11 on a table with two owners: the owner `user_a` deletes the expense with identifier 3. -/
theorem handleDelete_removes_record_witness :
    (twoOwners.map (·.id)).Nodup ∧
    ((handleDelete { userId := "user_a" } twoOwners 3 true none none).rows
        = twoOwners.filter (fun row => !(row.id == 3 && row.user_id == "user_a"))
    ∧ listAfterDelete { userId := "user_a" } twoOwners 3
        = (loadedList { userId := "user_a" } twoOwners).filter (fun row => row.id != 3)
    ∧ (∀ r ∈ loadedList { userId := "user_a" } twoOwners, r.id = 3 →
        listAfterDelete { userId := "user_a" } twoOwners 3
          = (loadedList { userId := "user_a" } twoOwners).erase r)
    ∧ (∀ (tz : TimeZone) (now : Int) (period : String) (r : Transaction),
        r ∈ filterTransactions tz now (loadedList { userId := "user_a" } twoOwners) period →
        r.id = 3 →
        (BalanceCard (filterTransactions tz now
            (listAfterDelete { userId := "user_a" } twoOwners 3) period)).totalIncome
            = (BalanceCard (filterTransactions tz now
                (loadedList { userId := "user_a" } twoOwners) period)).totalIncome
              - (if r.type = "income" then r.amount else 0)
        ∧ (BalanceCard (filterTransactions tz now
            (listAfterDelete { userId := "user_a" } twoOwners 3) period)).totalExpense
            = (BalanceCard (filterTransactions tz now
                (loadedList { userId := "user_a" } twoOwners) period)).totalExpense
              - (if r.type = "expense" then r.amount else 0)
        ∧ (BalanceCard (filterTransactions tz now
            (listAfterDelete { userId := "user_a" } twoOwners 3) period)).balance
            = (BalanceCard (filterTransactions tz now
                (loadedList { userId := "user_a" } twoOwners) period)).balance
              - (if r.type = "income" then r.amount else 0)
              + (if r.type = "expense" then r.amount else 0))) :=
  ⟨by decide, handleDelete_removes_record { userId := "user_a" } twoOwners 3 (by decide)⟩

/-! ### The transaction form -/

theorem digitChar_facts :
    ∀ d : Fin 10, (digitChar d.val).isDigit = true
      ∧ isStrWhiteSpaceChar (digitChar d.val) = false
      ∧ digitChar d.val ≠ '-' ∧ digitChar d.val ≠ '+' ∧ digitChar d.val ≠ 'I'
      ∧ (digitChar d.val).toNat - 48 = d.val := by
  decide

theorem takeWhile_digitsText (ds : List (Fin 10)) (rest : List Char)
    (h : rest.takeWhile Char.isDigit = []) :
    (digitsText ds ++ rest).takeWhile Char.isDigit = digitsText ds := by
  rw [List.takeWhile_append_of_pos, h, List.append_nil]
  intro c hc
  unfold digitsText at hc
  rw [List.mem_map] at hc
  obtain ⟨d, -, rfl⟩ := hc
  exact (digitChar_facts d).1

theorem dropWhile_digitsText (ds : List (Fin 10)) (rest : List Char)
    (h : rest.dropWhile Char.isDigit = rest) :
    (digitsText ds ++ rest).dropWhile Char.isDigit = rest := by
  rw [List.dropWhile_append_of_pos, h]
  intro c hc
  unfold digitsText at hc
  rw [List.mem_map] at hc
  obtain ⟨d, -, rfl⟩ := hc
  exact (digitChar_facts d).1

theorem digitsValue_digitsText (ds : List (Fin 10)) :
    digitsValue (digitsText ds) = natOfDigits ds := by
  unfold digitsValue digitsText natOfDigits
  rw [List.foldl_map]
  congr 1
  funext n d
  rw [(digitChar_facts d).2.2.2.2.2]

theorem length_digitsText (ds : List (Fin 10)) : (digitsText ds).length = ds.length := by
  unfold digitsText
  rw [List.length_map]

theorem digitsText_eq_nil {ds : List (Fin 10)} : digitsText ds = [] ↔ ds = [] := by
  unfold digitsText
  exact List.map_eq_nil_iff

theorem scale10_zero (x : ℚ) : scale10 x 0 = x := by
  simp [scale10]

/-- The value that `parseMagnitude` gives to the digits of a decimal text. -/
theorem parseMagnitude_decimal (negative : Bool) (ip fp : List (Fin 10)) (hip : ip ≠ []) :
    parseMagnitude negative (digitsText ip ++ if fp = [] then [] else '.' :: digitsText fp)
      = JSNumber.finite (if negative then -decimalValue ip fp else decimalValue ip fp) := by
  obtain ⟨d, ip', rfl⟩ := List.exists_cons_of_ne_nil hip
  have hpre : "Infinity".data.isPrefixOf
      (digitsText (d :: ip') ++ if fp = [] then [] else '.' :: digitsText fp) = false := by
    have hI := (digitChar_facts d).2.2.2.2.1
    show List.isPrefixOf ('I' :: _) (digitChar d.val :: _) = false
    rw [List.isPrefixOf_cons₂]
    have : ('I' == digitChar d.val) = false := by
      rw [beq_eq_false_iff_ne]
      exact fun e => hI e.symm
    rw [this, Bool.false_and]
  unfold parseMagnitude
  rw [hpre]
  simp only [Bool.false_eq_true, if_false]
  by_cases hfp : fp = []
  · subst hfp
    simp only [if_true, List.append_nil]
    have ht : (digitsText (d :: ip')).takeWhile Char.isDigit = digitsText (d :: ip') := by
      have := takeWhile_digitsText (d :: ip') [] rfl
      rwa [List.append_nil] at this
    have hd : (digitsText (d :: ip')).dropWhile Char.isDigit = [] := by
      have := dropWhile_digitsText (d :: ip') [] rfl
      rwa [List.append_nil] at this
    rw [ht, hd]
    have hne : ¬ (digitsText (d :: ip') = [] ∧ ([] : List Char) = []) := by
      rintro ⟨h, -⟩
      exact List.cons_ne_nil _ _ (digitsText_eq_nil.1 h)
    have e0 : digitsValue [] = natOfDigits [] := rfl
    rw [if_neg hne, digitsValue_digitsText, e0, scale10_zero]
    rfl
  · simp only [hfp, if_false]
    have hrest : ('.' :: digitsText fp).takeWhile Char.isDigit = [] := by
      rw [List.takeWhile_cons_of_neg (by decide)]
    have hrest' : ('.' :: digitsText fp).dropWhile Char.isDigit = '.' :: digitsText fp := by
      rw [List.dropWhile_cons_of_neg (by decide)]
    rw [takeWhile_digitsText _ _ hrest, dropWhile_digitsText _ _ hrest']
    have ht : (digitsText fp).takeWhile Char.isDigit = digitsText fp := by
      have := takeWhile_digitsText fp [] rfl
      rwa [List.append_nil] at this
    have hd : (digitsText fp).dropWhile Char.isDigit = [] := by
      have := dropWhile_digitsText fp [] rfl
      rwa [List.append_nil] at this
    simp only [ht, hd]
    have hne : ¬ (digitsText (d :: ip') = [] ∧ digitsText fp = []) := by
      rintro ⟨h, -⟩
      exact List.cons_ne_nil _ _ (digitsText_eq_nil.1 h)
    rw [if_neg hne, digitsValue_digitsText, digitsValue_digitsText, scale10_zero,
      length_digitsText]
    rfl

/-- The function `parseFloat` on a decimal text: the number that the text denotes, negative
when the text has a minus sign; never `NaN`. -/
theorem parseFloat_decimalText (negative : Bool) (ip fp : List (Fin 10)) (hip : ip ≠ []) :
    parseFloat (decimalText negative ip fp)
      = JSNumber.finite (if negative then -decimalValue ip fp else decimalValue ip fp) := by
  obtain ⟨d, ip', rfl⟩ := List.exists_cons_of_ne_nil hip
  obtain ⟨-, hws, hminus, hplus, -, -⟩ := digitChar_facts d
  unfold parseFloat decimalText
  simp only
  cases negative with
  | true =>
    simp only [if_true, List.singleton_append]
    rw [List.dropWhile_cons_of_neg (by decide)]
    simp only [splitSign]
    exact parseMagnitude_decimal true (d :: ip') fp (List.cons_ne_nil _ _)
  | false =>
    simp only [Bool.false_eq_true, if_false, List.nil_append]
    have hsplit : ∀ rest : List Char, splitSign (digitChar d.val :: rest)
        = (false, digitChar d.val :: rest) := by
      intro rest
      unfold splitSign
      split
      · rename_i h
        exact absurd (List.cons.inj h).1 hminus
      · rename_i h
        exact absurd (List.cons.inj h).1 hplus
      · rfl
    have hdrop : ∀ rest : List Char,
        (digitChar d.val :: rest).dropWhile isStrWhiteSpaceChar = digitChar d.val :: rest := by
      intro rest
      rw [List.dropWhile_cons_of_neg (by simp [hws])]
    have e : digitsText (d :: ip') ++ (if fp = [] then [] else '.' :: digitsText fp)
        = digitChar d.val :: (digitsText ip' ++ if fp = [] then [] else '.' :: digitsText fp) :=
      rfl
    rw [e, hdrop, hsplit, ← e]
    exact parseMagnitude_decimal false (d :: ip') fp (List.cons_ne_nil _ _)

/-- C12: the update request of `handleSubmit` is filtered by the `id` of the edited transaction
alone, whereas the delete request of `handleDelete` is filtered by `id` and by `user_id`: when
`user_a` submits an edit of the transaction with identifier 2, which belongs to `user_b`, that
row is overwritten and becomes a row of `user_a`. -/
theorem handleSubmit_update_scope :
    (∀ (form : FormState) (edited : Transaction) (userId : String),
      submitRequest form (some edited) userId
        = Request.update (transactionData form userId) [Filter.idEq edited.id]) ∧
    (∀ (st : AppState) (rows : Store) (id : Nat) (deleteFailure fetchFailure : Option String),
      (handleDelete st rows id true deleteFailure fetchFailure).requests.head?
        = some (Request.delete [Filter.idEq id, Filter.userIdEq st.userId])) ∧
    foreignRow ∈ twoOwners ∧ foreignRow.user_id = "user_b" ∧
    (handleSubmit editForm (some foreignRow) "user_a" { year := 2024, month := 3, day := 3 }
        twoOwners none).rows
      = twoOwners.map (fun row => if row.id = 2 then overwrittenRow else row) ∧
    overwrittenRow.user_id = "user_a" ∧
    (handleDelete { userId := "user_a" } twoOwners 2 true none none).rows = twoOwners := by
  refine ⟨fun _ _ _ => rfl, ?_, by decide, rfl, by decide!, rfl, by decide!⟩
  intro st rows id deleteFailure fetchFailure
  unfold handleDelete
  simp only [if_true]
  split <;> rfl

/-- C13, as amended: the amount that `handleSubmit` sends, for insert and for update alike, is
`parseFloat` of the amount text; for a decimal text (an optional minus sign, digits, an optional
point and digits) it is the finite number that the text denotes, never `NaN`, and it is negative
when the text has a minus sign and denotes a number other than zero. -/
theorem handleSubmit_amount (negative : Bool) (ip fp : List (Fin 10)) (form : FormState)
    (editTransaction : Option Transaction) (userId : String) (today : DateOnly) (rows : Store)
    (failure : Option String) (hip : ip ≠ [])
    (hamount : form.amount = decimalText negative ip fp) :
    (handleSubmit form editTransaction userId today rows failure).requests
        = [submitRequest form editTransaction userId]
    ∧ submitRequest form editTransaction userId
        = (match editTransaction with
          | some edited => Request.update (transactionData form userId) [Filter.idEq edited.id]
          | none => Request.insert [transactionData form userId])
    ∧ (transactionData form userId).amount
        = JSNumber.finite (if negative then -decimalValue ip fp else decimalValue ip fp)
    ∧ 0 ≤ decimalValue ip fp := by
  refine ⟨?_, ?_, ?_, ?_⟩
  · unfold handleSubmit
    simp only
    split <;> rfl
  · cases editTransaction <;> rfl
  · show parseFloat form.amount = _
    rw [hamount]
    exact parseFloat_decimalText negative ip fp hip
  · unfold decimalValue
    positivity

/-- The amended C13 on the amount text `-12.50` of a new transaction. -/
theorem handleSubmit_amount_witness :
    ([1, 2] : List (Fin 10)) ≠ [] ∧
    ({ negativeAmountForm with amount := "-12.50" } : FormState).amount
      = decimalText true [1, 2] [5, 0] ∧
    ((handleSubmit { negativeAmountForm with amount := "-12.50" } none "user_a"
          { year := 2024, month := 1, day := 6 } [] none).requests
        = [submitRequest { negativeAmountForm with amount := "-12.50" } none "user_a"]
    ∧ submitRequest { negativeAmountForm with amount := "-12.50" } none "user_a"
        = (match (none : Option Transaction) with
          | some edited =>
            Request.update (transactionData { negativeAmountForm with amount := "-12.50" }
              "user_a") [Filter.idEq edited.id]
          | none =>
            Request.insert [transactionData { negativeAmountForm with amount := "-12.50" }
              "user_a"])
    ∧ (transactionData { negativeAmountForm with amount := "-12.50" } "user_a").amount
        = JSNumber.finite
            (if true then -decimalValue [1, 2] [5, 0] else decimalValue [1, 2] [5, 0])
    ∧ 0 ≤ decimalValue [1, 2] [5, 0]) :=
  ⟨by decide, by decide,
    handleSubmit_amount true [1, 2] [5, 0] { negativeAmountForm with amount := "-12.50" } none
      "user_a" { year := 2024, month := 1, day := 6 } [] none (by decide) (by decide)⟩

/-- Against C13 as stated: with the amount text `-5`, which the number input accepts, the
record that `handleSubmit` sends for insert has the amount -5. -/
theorem handleSubmit_amount_counterexample :
    (handleSubmit negativeAmountForm none "user_a" { year := 2024, month := 1, day := 6 } []
        none).requests
      = [Request.insert
          [{ type := "expense", amount := JSNumber.finite (-5), description := "Refund",
             category := "Shopping", transaction_date := { year := 2024, month := 1, day := 6 },
             user_id := "user_a" }]] := by
  decide!

/-- C14: a failed list fetch leaves the state of `App`, its transaction list included, as it
was and issues the one request; a failed delete issues the delete request alone, without
re-fetch, and leaves the state as it was; a failed insert or update sets the error message of
the form, keeps the type, amount, description, category and date entered, calls neither
`onTransactionAdded` nor `onCancelEdit`, ends with `loading` false and issues the one request.
In each case the table is as it was before the call. -/
theorem store_error_handling :
    (∀ (st : AppState) (rows : Store) (message : String),
      fetchTransactions st rows (some message)
        = { state := st, rows := rows, requests := [Request.select [Filter.userIdEq st.userId]] })
    ∧ (∀ (st : AppState) (rows : Store) (id : Nat) (message : String)
        (fetchFailure : Option String),
      handleDelete st rows id true (some message) fetchFailure
        = { state := st, rows := rows,
            requests := [Request.delete [Filter.idEq id, Filter.userIdEq st.userId]] })
    ∧ (∀ (form : FormState) (editTransaction : Option Transaction) (userId : String)
        (today : DateOnly) (rows : Store) (failure : Option String) (message : String),
      (rows.call (submitRequest form editTransaction userId) failure).2.error = some message →
      handleSubmit form editTransaction userId today rows failure
        = { form := { form with error := message, loading := false },
            rows := (rows.call (submitRequest form editTransaction userId) failure).1,
            requests := [submitRequest form editTransaction userId],
            onTransactionAdded := false, onCancelEdit := false })
    ∧ (∀ (form : FormState) (editTransaction : Option Transaction) (userId : String)
        (today : DateOnly) (rows : Store) (message : String),
      handleSubmit form editTransaction userId today rows (some message)
        = { form := { form with error := message, loading := false },
            rows := rows,
            requests := [submitRequest form editTransaction userId],
            onTransactionAdded := false, onCancelEdit := false })
    ∧ handleSubmit emptyAmountForm none "user_a" { year := 2024, month := 3, day := 3 }
        twoOwners none
        = { form := { emptyAmountForm with error := "invalid input", loading := false },
            rows := twoOwners,
            requests := [submitRequest emptyAmountForm none "user_a"],
            onTransactionAdded := false, onCancelEdit := false } := by
  refine ⟨fun _ _ _ => rfl, fun _ _ _ _ _ => rfl, ?_, fun _ _ _ _ _ _ => rfl, by decide!⟩
  intro form editTransaction userId today rows failure message h
  unfold handleSubmit
  simp only
  rw [h]

end Wallet
